import Mathlib

/-! ## Character helpers -/

/-- The single-quote character, kept out of literals. -/
def sqc : Char := Char.ofNat 39

/-- The double-quote character. -/
def dqc : Char := Char.ofNat 34

/-- The backtick character. -/
def btc : Char := Char.ofNat 96

/-- The backslash character. -/
def bsc : Char := Char.ofNat 92

/-- The newline character. -/
def nlc : Char := Char.ofNat 10

/-- JavaScript whitespace as matched by a backslash-s class: space, tab,
line feed, vertical tab, form feed, carriage return, and the Unicode
space characters. -/
def isJsSpace (c : Char) : Bool :=
  c.toNat = 32 || c.toNat = 9 || c.toNat = 10 || c.toNat = 11 || c.toNat = 12 ||
  c.toNat = 13 || c.toNat = 160 || c.toNat = 5760 ||
  (8192 ≤ c.toNat && c.toNat ≤ 8202) ||
  c.toNat = 8232 || c.toNat = 8233 || c.toNat = 8239 || c.toNat = 8287 ||
  c.toNat = 12288 || c.toNat = 65279

/-- Characters matched by the dot in a JavaScript regex without the s flag:
everything except line terminators. -/
def jsDotOk (c : Char) : Bool :=
  !(c.toNat = 10 || c.toNat = 13 || c.toNat = 8232 || c.toNat = 8233)

/-- JavaScript word characters, the backslash-w class. -/
def isWordCh (c : Char) : Bool :=
  (65 ≤ c.toNat && c.toNat ≤ 90) || (97 ≤ c.toNat && c.toNat ≤ 122) ||
  (48 ≤ c.toNat && c.toNat ≤ 57) || c.toNat = 95

/-- Lower-casing for the case-insensitive regex flag (ASCII, which covers
every configured word). -/
def lowc (c : Char) : Char :=
  if 65 ≤ c.toNat && c.toNat ≤ 90 then Char.ofNat (c.toNat + 32) else c

/-! ## Regex syntax -/

/-- Character classes appearing in the lexer patterns. -/
inductive CClass
  | space
  | digit
  | hexDigit
  | binDigit
  | notOf (cs : List Char)
deriving DecidableEq, Repr

/-- Membership in a character class. -/
def ccMatch : CClass → Char → Bool
  | .space, c => isJsSpace c
  | .digit, c => 48 ≤ c.toNat && c.toNat ≤ 57
  | .hexDigit, c => (48 ≤ c.toNat && c.toNat ≤ 57) ||
      (97 ≤ c.toNat && c.toNat ≤ 102) || (65 ≤ c.toNat && c.toNat ≤ 70)
  | .binDigit, c => c.toNat = 48 || c.toNat = 49
  | .notOf cs, c => !(cs.contains c)

/-- Abstract syntax of the JavaScript regexes used by the Tokenizer:
epsilon, the universal class (caret in brackets), the dot, a character,
a case-insensitive character, a character class, sequencing, ordered
alternation, greedy and lazy star, greedy plus, greedy option, the word
boundary, and the end anchor. -/
inductive Rx
  | eps
  | anyc
  | dotc
  | ch (c : Char)
  | chCI (c : Char)
  | cc (k : CClass)
  | seq (a b : Rx)
  | alt (a b : Rx)
  | star (a : Rx)
  | starL (a : Rx)
  | plus (a : Rx)
  | opt (a : Rx)
  | bnd
  | eos
deriving DecidableEq, Repr

/-- Word-ness of an optional preceding character, for boundaries. -/
def isWordO : Option Char → Bool
  | some c => isWordCh c
  | none => false

/-- Word-ness of the head of the remaining input, for boundaries. -/
def isWordHead : List Char → Bool
  | c :: _ => isWordCh c
  | [] => false

/-- The character preceding the position reached after consuming n
characters of s, given the character p preceding s itself. -/
def prevAfter (p : Option Char) (s : List Char) (n : Nat) : Option Char :=
  if n = 0 then p else (s.take n).getLast?

/-- Backtracking semantics of an anchored JavaScript regex: the list of
consumed lengths of all matches starting at the current position, in the
preference order of the engine.  Ordered alternation concatenates; the
greedy star prefers more iterations, the lazy star fewer; an iteration
that consumes nothing stops a repetition, as in the ECMAScript
RepeatMatcher.  The fuel argument bounds the recursion depth and is
always instantiated amply. -/
def cands : Nat → Rx → Option Char → List Char → List Nat
  | 0, _, _, _ => []
  | Nat.succ f, re, p, s =>
    match re with
    | .eps => [0]
    | .anyc => match s with
      | [] => []
      | _ :: _ => [1]
    | .dotc => match s with
      | c :: _ => if jsDotOk c then [1] else []
      | [] => []
    | .ch c => match s with
      | d :: _ => if d = c then [1] else []
      | [] => []
    | .chCI c => match s with
      | d :: _ => if lowc d = lowc c then [1] else []
      | [] => []
    | .cc k => match s with
      | d :: _ => if ccMatch k d then [1] else []
      | [] => []
    | .seq a b =>
      (cands f a p s).flatMap fun n =>
        (cands f b (prevAfter p s n) (s.drop n)).map fun m => n + m
    | .alt a b => cands f a p s ++ cands f b p s
    | .star a =>
      ((cands f a p s).flatMap fun n =>
        if n = 0 then [0]
        else (cands f (.star a) (prevAfter p s n) (s.drop n)).map fun m => n + m) ++ [0]
    | .starL a =>
      0 :: (cands f a p s).flatMap fun n =>
        if n = 0 then []
        else (cands f (.starL a) (prevAfter p s n) (s.drop n)).map fun m => n + m
    | .plus a =>
      (cands f a p s).flatMap fun n =>
        if n = 0 then [0]
        else (cands f (.star a) (prevAfter p s n) (s.drop n)).map fun m => n + m
    | .opt a => cands f a p s ++ [0]
    | .bnd => if isWordO p != isWordHead s then [0] else []
    | .eos => match s with
      | [] => [0]
      | _ => []

/-- Fuel that amply covers the recursion depth of cands on every pattern
of the Tokenizer. -/
def reFuel (s : List Char) : Nat := 1024 + 16 * s.length

/-- First anchored match length of a JavaScript regex at position 0, the
length of group 1 of a match call in the source (group 1 always spans the
whole match there, boundary assertions being zero-width). -/
def jsMatch (re : Rx) (s : List Char) : Option Nat :=
  (cands (reFuel s) re none s).head?

/-- Conservative syntactic test that every match of a pattern consumes at
least one character. -/
def minOne : Rx → Bool
  | .eps => false
  | .anyc => true
  | .dotc => true
  | .ch _ => true
  | .chCI _ => true
  | .cc _ => true
  | .seq a b => minOne a || minOne b
  | .alt a b => minOne a && minOne b
  | .star _ => false
  | .starL _ => false
  | .plus a => minOne a
  | .opt _ => false
  | .bnd => false
  | .eos => false

/-! ## Token data model

Mirrors src/src/lexer/token.ts and token-types.ts as used by the lexer:
a token has a type, a value (the matched slice), an optional decoded
placeholder key, and a half-open position range assigned during tokenize. -/

/-- Token types, from the tokenTypes usage in src/src/lexer/index.ts. -/
inductive TType
  | WHITESPACE
  | WORD
  | STRING
  | RESERVED
  | RESERVED_TOPLEVEL
  | RESERVED_NEWLINE
  | OPERATOR
  | OPEN_PAREN
  | CLOSE_PAREN
  | NUMBER
  | PLACEHOLDER
  | LINE_COMMENT
  | BLOCK_COMMENT
deriving DecidableEq, Repr

/-- The IToken record.  The value is modelled as a list of characters;
position is the pair assigned by tokenize. -/
structure IToken where
  type : TType
  value : List Char
  key : Option (List Char)
  position : Nat × Nat
deriving DecidableEq, Repr

/-! ## Regex construction, following the Tokenizer constructor -/

/-- Ordered alternation of a list of branches, as produced by joining
pattern strings with a pipe: the empty list yields the empty pattern,
which matches the empty string. -/
def altList : List Rx → Rx
  | [] => .eps
  | [r] => r
  | r :: rs => .alt r (altList rs)

/-- A literal string pattern (the result of an escapeRegExp call). -/
def strRx (s : List Char) : Rx :=
  s.foldr (fun c r => Rx.seq (Rx.ch c) r) Rx.eps

/-- A case-insensitive literal string pattern (i flag). -/
def ciStrRx (s : List Char) : Rx :=
  s.foldr (fun c r => Rx.seq (Rx.chCI c) r) Rx.eps

/-- One reserved word, after join and replace in createReservedWordRegex:
each space becomes one-or-more whitespace, other characters match
case-insensitively (the i flag).  The configured words contain no regex
metacharacters, so the unescaped interpolation is a literal here. -/
def ciWordRx (s : List Char) : Rx :=
  s.foldr (fun c r => Rx.seq (if c = ' ' then Rx.plus (Rx.cc .space) else Rx.chCI c) r) Rx.eps

/-- createLineCommentRegex: caret, group of escaped prefixes joined by
pipes, then a lazy dot-star up to a newline or the end. -/
def createLineCommentRegex (lineCommentTypes : List String) : Rx :=
  .seq (altList (lineCommentTypes.map fun c => strRx c.toList))
    (.seq (.starL .dotc) (.alt (.ch nlc) .eos))

/-- createReservedWordRegex: the words joined by pipes, spaces replaced
by one-or-more whitespace, wrapped in caret group and word boundary,
with the i flag. -/
def createReservedWordRegex (reservedWords : List String) : Rx :=
  .seq (altList (reservedWords.map fun w => ciWordRx w.toList)) .bnd

/-- createWordRegex: caret, group of the special characters joined by
pipes, nothing else: the pattern matches exactly one alternative from
the configured list (the characters used in the configurations here are
not regex metacharacters, so each alternative is a literal). -/
def createWordRegex (specialChars : List String) : Rx :=
  altList (specialChars.map fun c => strRx c.toList)

/-- The five string-type keys of createStringPattern. -/
inductive StrTy
  | bq
  | brk
  | dq
  | sq
  | nsq
deriving DecidableEq, Repr

/-- A bracket-or-quote segment of the form open, non-quote characters,
then close-or-end, used by the backtick and bracket patterns. -/
def qSeg (openC closeC : Char) : Rx :=
  .seq (.ch openC) (.seq (.star (.cc (.notOf [closeC]))) (.alt .eos (.ch closeC)))

/-- Body of a backslash-escaping quoted string: non-special characters,
then any number of an escaped character followed by more non-special
characters. -/
def escBody (excl : List Char) : Rx :=
  .seq (.star (.cc (.notOf excl)))
    (.star (.seq (.seq (.ch bsc) .dotc) (.star (.cc (.notOf excl)))))

/-- The pattern table of createStringPattern, one entry per string type:
backtick quoted with doubling, bracket quoted with doubled close
bracket, double quoted and single quoted with doubling or backslash
escapes, and the N-prefixed national string. -/
def stringTypePattern : StrTy → Rx
  | .bq => .plus (qSeg btc btc)
  | .brk => .seq (qSeg '[' ']')
      (.star (.seq (.ch ']') (.seq (.star (.cc (.notOf [']']))) (.alt .eos (.ch ']')))))
  | .dq => .plus (.seq (.ch dqc) (.seq (escBody [dqc, bsc]) (.alt (.ch dqc) .eos)))
  | .sq => .plus (.seq (.ch sqc) (.seq (escBody [sqc, bsc]) (.alt (.ch sqc) .eos)))
  | .nsq => .plus (.seq (.ch 'N') (.seq (.ch sqc)
      (.seq (escBody ['N', sqc, bsc]) (.alt (.ch sqc) .eos))))

/-- createStringPattern: the selected patterns joined by pipes. -/
def createStringPattern (stringTypes : List StrTy) : Rx :=
  altList (stringTypes.map stringTypePattern)

/-- createStringRegex wraps the pattern in a caret group. -/
def createStringRegex (stringTypes : List StrTy) : Rx :=
  createStringPattern stringTypes

/-- escapeParen: a single character is escaped literally, a longer word
is wrapped in word boundaries; the paren regex carries the i flag. -/
def escapeParen (paren : List Char) : Rx :=
  if paren.length = 1 then altList (paren.map Rx.chCI)
  else .seq .bnd (.seq (ciStrRx paren) .bnd)

/-- createParenRegex: caret group of the escaped parens joined by pipes. -/
def createParenRegex (parens : List String) : Rx :=
  altList (parens.map fun p => escapeParen p.toList)

/-- createPlaceholderRegex: an empty or missing type list yields false
(no regex); otherwise the escaped prefixes followed by the given
pattern. -/
def createPlaceholderRegex (types : Option (List String)) (pattern : Rx) : Option Rx :=
  match types with
  | none => none
  | some [] => none
  | some l => some (.seq (altList (l.map fun t => strRx t.toList)) pattern)

/-- The identifier pattern interpolated for named placeholders comes
from the undocumented cfg.indentRegex option; when the option is absent,
JavaScript template interpolation turns undefined into the literal text
undefined inside the pattern. -/
def indentPattern (indentRegex : Option String) : Rx :=
  match indentRegex with
  | none => strRx ("undefined").toList
  | some p => strRx p.toList

/-- WHITESPACE_REGEX, hard coded. -/
def whitespaceRx : Rx := .plus (.cc .space)

/-- NUMBER_REGEX, hard coded: decimal with optional fraction, hex, or
binary, followed by a word boundary; no unary sign. -/
def numberRx : Rx :=
  .seq (.alt (.seq (.plus (.cc .digit)) (.opt (.seq (.ch '.') (.plus (.cc .digit)))))
    (.alt (.seq (.ch '0') (.seq (.ch 'x') (.plus (.cc .hexDigit))))
      (.seq (.ch '0') (.seq (.ch 'b') (.plus (.cc .binDigit)))))) .bnd

/-- The multi-character operators of OPERATOR_REGEX, in source order. -/
def operatorAlternatives : List String :=
  ["!=", "<>", "==", "<=", ">=", "!<", "!>", "||", "::", "->>", "->",
   "~~*", "~~", "!~~*", "!~~", "~*", "!~*", "!~"]

/-- OPERATOR_REGEX, hard coded: the multi-character operators, then a
catch-all dot matching any single character except a line terminator. -/
def operatorRx : Rx :=
  altList (operatorAlternatives.map (fun s => strRx s.toList) ++ [Rx.dotc])

/-- BLOCK_COMMENT_REGEX, hard coded: slash star, a lazy any-character
star, then star slash or the end of input. -/
def blockCommentRx : Rx :=
  .seq (strRx ("/*").toList) (.seq (.starL .anyc) (.alt (strRx ("*/").toList) .eos))

/-! ## The Tokenizer -/

/-- Dialect configuration, the cfg argument of the Tokenizer
constructor.  Absent lists are modelled as none: the constructor
dereferences most of them unconditionally, so an absent list there is a
runtime TypeError. -/
structure Cfg where
  reservedWords : Option (List String)
  reservedToplevelWords : Option (List String)
  reservedNewlineWords : Option (List String)
  stringTypes : Option (List StrTy)
  openParens : Option (List String)
  closeParens : Option (List String)
  indexedPlaceholderTypes : Option (List String)
  namedPlaceholderTypes : Option (List String)
  lineCommentTypes : Option (List String)
  wordChars : Option (List String)
  indentRegex : Option String

/-- The compiled regex fields of a Tokenizer instance.  Only the three
placeholder fields can be false in the source; they are Options here. -/
structure Tokenizer where
  WHITESPACE_REGEX : Rx
  NUMBER_REGEX : Rx
  OPERATOR_REGEX : Rx
  BLOCK_COMMENT_REGEX : Rx
  LINE_COMMENT_REGEX : Rx
  RESERVED_TOPLEVEL_REGEX : Rx
  RESERVED_NEWLINE_REGEX : Rx
  RESERVED_PLAIN_REGEX : Rx
  WORD_REGEX : Rx
  STRING_REGEX : Rx
  OPEN_PAREN_REGEX : Rx
  CLOSE_PAREN_REGEX : Rx
  INDEXED_PLACEHOLDER_REGEX : Option Rx
  IDENT_NAMED_PLACEHOLDER_REGEX : Option Rx
  STRING_NAMED_PLACEHOLDER_REGEX : Option Rx

/-- Body of the Tokenizer constructor once every dereferenced list is
present, assigning each regex field exactly as the source does. -/
def Tokenizer.build (lineCommentTypes reservedToplevelWords reservedNewlineWords
    reservedWords : List String) (stringTypes : List StrTy)
    (openParens closeParens : List String)
    (indexedPlaceholderTypes namedPlaceholderTypes : Option (List String))
    (wordChars : List String) (indentRegex : Option String) : Tokenizer :=
  { WHITESPACE_REGEX := whitespaceRx
    NUMBER_REGEX := numberRx
    OPERATOR_REGEX := operatorRx
    BLOCK_COMMENT_REGEX := blockCommentRx
    LINE_COMMENT_REGEX := createLineCommentRegex lineCommentTypes
    RESERVED_TOPLEVEL_REGEX := createReservedWordRegex reservedToplevelWords
    RESERVED_NEWLINE_REGEX := createReservedWordRegex reservedNewlineWords
    RESERVED_PLAIN_REGEX := createReservedWordRegex reservedWords
    WORD_REGEX := createWordRegex wordChars
    STRING_REGEX := createStringRegex stringTypes
    OPEN_PAREN_REGEX := createParenRegex openParens
    CLOSE_PAREN_REGEX := createParenRegex closeParens
    INDEXED_PLACEHOLDER_REGEX :=
      createPlaceholderRegex indexedPlaceholderTypes (.star (.cc .digit))
    IDENT_NAMED_PLACEHOLDER_REGEX :=
      createPlaceholderRegex namedPlaceholderTypes (indentPattern indentRegex)
    STRING_NAMED_PLACEHOLDER_REGEX :=
      createPlaceholderRegex namedPlaceholderTypes (createStringPattern stringTypes) }

/-- The Tokenizer constructor: each configured list is dereferenced in
source order, so the first absent one raises a TypeError; wordChars has
a default empty list and the placeholder type lists go through an
isEmpty check, so those three may be absent. -/
def Tokenizer.create (cfg : Cfg) : Except String Tokenizer :=
  match cfg.lineCommentTypes with
  | none => .error ("TypeError: cfg.lineCommentTypes is undefined")
  | some lc =>
    match cfg.reservedToplevelWords with
    | none => .error ("TypeError: cfg.reservedToplevelWords is undefined")
    | some rt =>
      match cfg.reservedNewlineWords with
      | none => .error ("TypeError: cfg.reservedNewlineWords is undefined")
      | some rn =>
        match cfg.reservedWords with
        | none => .error ("TypeError: cfg.reservedWords is undefined")
        | some rw =>
          match cfg.stringTypes with
          | none => .error ("TypeError: cfg.stringTypes is undefined")
          | some st =>
            match cfg.openParens with
            | none => .error ("TypeError: cfg.openParens is undefined")
            | some op =>
              match cfg.closeParens with
              | none => .error ("TypeError: cfg.closeParens is undefined")
              | some cp =>
                .ok (Tokenizer.build lc rt rn rw st op cp
                  cfg.indexedPlaceholderTypes cfg.namedPlaceholderTypes
                  (cfg.wordChars.getD []) cfg.indentRegex)

/-! ## Classifiers -/

/-- getTokenOnFirstMatch: a false regex yields nothing; otherwise the
first match becomes a token whose value is group 1, with a null key.
The position pair is assigned later by tokenize. -/
def getTokenOnFirstMatch : Option Rx → TType → List Char → Option IToken
  | none, _, _ => none
  | some re, ty, input =>
    match jsMatch re input with
    | some n => some { type := ty, value := input.take n, key := none, position := (0, 0) }
    | none => none

/-- getWhitespaceToken. -/
def getWhitespaceToken (tk : Tokenizer) (input : List Char) : Option IToken :=
  getTokenOnFirstMatch (some tk.WHITESPACE_REGEX) .WHITESPACE input

/-- getLineCommentToken. -/
def getLineCommentToken (tk : Tokenizer) (input : List Char) : Option IToken :=
  getTokenOnFirstMatch (some tk.LINE_COMMENT_REGEX) .LINE_COMMENT input

/-- getBlockCommentToken. -/
def getBlockCommentToken (tk : Tokenizer) (input : List Char) : Option IToken :=
  getTokenOnFirstMatch (some tk.BLOCK_COMMENT_REGEX) .BLOCK_COMMENT input

/-- Eager or-else on optional tokens, the JavaScript or operator over
token-or-undefined values. -/
def orT (a b : Option IToken) : Option IToken :=
  match a with
  | some t => some t
  | none => b

/-- getCommentToken: line comment first, then block comment. -/
def getCommentToken (tk : Tokenizer) (input : List Char) : Option IToken :=
  orT (getLineCommentToken tk input) (getBlockCommentToken tk input)

/-- getStringToken. -/
def getStringToken (tk : Tokenizer) (input : List Char) : Option IToken :=
  getTokenOnFirstMatch (some tk.STRING_REGEX) .STRING input

/-- getOpenParenToken. -/
def getOpenParenToken (tk : Tokenizer) (input : List Char) : Option IToken :=
  getTokenOnFirstMatch (some tk.OPEN_PAREN_REGEX) .OPEN_PAREN input

/-- getCloseParenToken. -/
def getCloseParenToken (tk : Tokenizer) (input : List Char) : Option IToken :=
  getTokenOnFirstMatch (some tk.CLOSE_PAREN_REGEX) .CLOSE_PAREN input

/-- getEscapedPlaceholderKey: every escaped quote in the key, a literal
backslash followed by the quote character, is replaced by the bare
quote character, globally and left to right. -/
def leadsWith : List Char → List Char → Bool
  | [], _ => true
  | _ :: _, [] => false
  | c :: cs, d :: ds => c = d && leadsWith cs ds

/-- One pass of the global replace. -/
def replAux : Nat → List Char → List Char → List Char → List Char
  | 0, _, _, s => s
  | _ + 1, _, _, [] => []
  | f + 1, pat, rep, c :: cs =>
    if pat ≠ [] ∧ leadsWith pat (c :: cs) = true then
      rep ++ replAux f pat rep ((c :: cs).drop pat.length)
    else c :: replAux f pat rep cs

/-- Global left-to-right replacement of a literal pattern. -/
def replaceAll (pat rep s : List Char) : List Char :=
  replAux s.length pat rep s

/-- getEscapedPlaceholderKey with key and quoteChar as in the source. -/
def getEscapedPlaceholderKey (key : List Char) (quoteChar : List Char) : List Char :=
  replaceAll (bsc :: quoteChar) quoteChar key

/-- getPlaceholderTokenWithKey: match, then set the parsed key. -/
def getPlaceholderTokenWithKey (regex : Option Rx) (parseKey : List Char → List Char)
    (input : List Char) : Option IToken :=
  (getTokenOnFirstMatch regex .PLACEHOLDER input).map fun t =>
    { t with key := some (parseKey t.value) }

/-- getIdentNamedPlaceholderToken: the key is the value without its
first character. -/
def getIdentNamedPlaceholderToken (tk : Tokenizer) (input : List Char) : Option IToken :=
  getPlaceholderTokenWithKey tk.IDENT_NAMED_PLACEHOLDER_REGEX (fun v => v.drop 1) input

/-- getStringNamedPlaceholderToken: the key is the value between index 2
and the last character, unescaped against the final quote character. -/
def getStringNamedPlaceholderToken (tk : Tokenizer) (input : List Char) : Option IToken :=
  getPlaceholderTokenWithKey tk.STRING_NAMED_PLACEHOLDER_REGEX
    (fun v => getEscapedPlaceholderKey ((v.drop 2).dropLast) (v.drop (v.length - 1))) input

/-- getIndexedPlaceholderToken: the key is the value without its first
character. -/
def getIndexedPlaceholderToken (tk : Tokenizer) (input : List Char) : Option IToken :=
  getPlaceholderTokenWithKey tk.INDEXED_PLACEHOLDER_REGEX (fun v => v.drop 1) input

/-- getPlaceholderToken: identifier-named, then string-named, then
indexed. -/
def getPlaceholderToken (tk : Tokenizer) (input : List Char) : Option IToken :=
  orT (getIdentNamedPlaceholderToken tk input)
    (orT (getStringNamedPlaceholderToken tk input) (getIndexedPlaceholderToken tk input))

/-- getNumberToken. -/
def getNumberToken (tk : Tokenizer) (input : List Char) : Option IToken :=
  getTokenOnFirstMatch (some tk.NUMBER_REGEX) .NUMBER input

/-- getOperatorToken. -/
def getOperatorToken (tk : Tokenizer) (input : List Char) : Option IToken :=
  getTokenOnFirstMatch (some tk.OPERATOR_REGEX) .OPERATOR input

/-- getToplevelReservedToken. -/
def getToplevelReservedToken (tk : Tokenizer) (input : List Char) : Option IToken :=
  getTokenOnFirstMatch (some tk.RESERVED_TOPLEVEL_REGEX) .RESERVED_TOPLEVEL input

/-- getNewlineReservedToken. -/
def getNewlineReservedToken (tk : Tokenizer) (input : List Char) : Option IToken :=
  getTokenOnFirstMatch (some tk.RESERVED_NEWLINE_REGEX) .RESERVED_NEWLINE input

/-- getPlainReservedToken. -/
def getPlainReservedToken (tk : Tokenizer) (input : List Char) : Option IToken :=
  getTokenOnFirstMatch (some tk.RESERVED_PLAIN_REGEX) .RESERVED input

/-- Whether the previous token exists and its value is exactly a dot. -/
def dotPrev (previousToken : Option IToken) : Bool :=
  match previousToken with
  | some t => t.value = ['.']
  | none => false

/-- getReservedWordToken: suppressed entirely when the previous token
value is exactly a dot, otherwise toplevel, then newline, then plain. -/
def getReservedWordToken (tk : Tokenizer) (input : List Char)
    (previousToken : Option IToken) : Option IToken :=
  bif dotPrev previousToken then none
  else
    orT (getToplevelReservedToken tk input)
      (orT (getNewlineReservedToken tk input) (getPlainReservedToken tk input))

/-- getWordToken. -/
def getWordToken (tk : Tokenizer) (input : List Char) : Option IToken :=
  getTokenOnFirstMatch (some tk.WORD_REGEX) .WORD input

/-- getNextToken: the classifier chain in source order. -/
def getNextToken (tk : Tokenizer) (input : List Char) (previousToken : Option IToken) :
    Option IToken :=
  orT (getWhitespaceToken tk input)
    (orT (getCommentToken tk input)
      (orT (getStringToken tk input)
        (orT (getOpenParenToken tk input)
          (orT (getCloseParenToken tk input)
            (orT (getPlaceholderToken tk input)
              (orT (getNumberToken tk input)
                (orT (getReservedWordToken tk input previousToken)
                  (orT (getWordToken tk input) (getOperatorToken tk input)))))))))

/-- The tokenize loop.  The source repeats getNextToken while input is
nonempty, assigns the position pair from the running offset, and drops
the value length from the input.  A step that produces an empty value
makes no progress, so the JavaScript loop never terminates; that case,
which also subsumes the impossible all-classifiers-fail case, is none
here.  When each step consumes at least one character, a fuel of the
input length is exactly enough, so the fuel never changes a terminating
run. -/
def tokenizeAux (tk : Tokenizer) : Nat → List Char → Nat → Option IToken →
    Option (List IToken)
  | _, [], _, _ => some []
  | 0, _ :: _, _, _ => none
  | Nat.succ f, c :: cs, lastPosition, prev =>
    match getNextToken tk (c :: cs) prev with
    | none => none
    | some t =>
      if t.value.length = 0 then none
      else
        (tokenizeAux tk f ((c :: cs).drop t.value.length)
          (lastPosition + t.value.length)
          (some { t with position := (lastPosition, lastPosition + t.value.length) })).map
          (fun rest =>
            { t with position := (lastPosition, lastPosition + t.value.length) } :: rest)

/-- tokenize: run the loop from offset 0 with no previous token. -/
def tokenize (tk : Tokenizer) (input : List Char) : Option (List IToken) :=
  tokenizeAux tk input.length input 0 none

/-! ## Concrete dialect configurations used by the theorems -/

/-- A representative standard SQL dialect configuration: every list is
present and nonempty, the named placeholder prefixes are at sign and
colon, and the string types are backtick, double quote and single
quote. -/
def cfgStd : Cfg :=
  { reservedWords := some ["as", "on", "in", "not", "null", "between", "case", "when", "then", "else", "end"]
    reservedToplevelWords := some ["select", "from", "where", "group by", "order by", "limit"]
    reservedNewlineWords := some ["and", "or", "xor"]
    stringTypes := some [StrTy.bq, StrTy.dq, StrTy.sq]
    openParens := some ["("]
    closeParens := some [")"]
    indexedPlaceholderTypes := some ["?"]
    namedPlaceholderTypes := some ["@", ":"]
    lineCommentTypes := some ["#", "--"]
    wordChars := some ["_"]
    indentRegex := none }

/-- The Tokenizer built from the standard configuration. -/
def tkStd : Tokenizer :=
  Tokenizer.build ["#", "--"]
    ["select", "from", "where", "group by", "order by", "limit"]
    ["and", "or", "xor"]
    ["as", "on", "in", "not", "null", "between", "case", "when", "then", "else", "end"]
    [StrTy.bq, StrTy.dq, StrTy.sq]
    ["("] [")"]
    (some ["?"]) (some ["@", ":"])
    ["_"] none

/-! ## The classifier chain as an ordered list -/

/-- First result of an ordered list of classifiers, the priority fold
described in the specification. -/
def firstSome (fs : List (List Char → Option IToken)) (s : List Char) : Option IToken :=
  fs.foldr (fun f acc => orT (f s) acc) none

/-- The thirteen classifiers of the specification priority list, in
order: whitespace; line comment; block comment; quoted string; open
paren; close paren; identifier-named, string-named and indexed
placeholder; number; toplevel, newline and plain reserved word, each
suppressed after a dot token; generic word; operator. -/
def classifierChain (tk : Tokenizer) (previousToken : Option IToken) :
    List (List Char → Option IToken) :=
  [getWhitespaceToken tk,
   getLineCommentToken tk,
   getBlockCommentToken tk,
   getStringToken tk,
   getOpenParenToken tk,
   getCloseParenToken tk,
   getIdentNamedPlaceholderToken tk,
   getStringNamedPlaceholderToken tk,
   getIndexedPlaceholderToken tk,
   getNumberToken tk,
   fun s => bif dotPrev previousToken then none else getToplevelReservedToken tk s,
   fun s => bif dotPrev previousToken then none else getNewlineReservedToken tk s,
   fun s => bif dotPrev previousToken then none else getPlainReservedToken tk s,
   getWordToken tk,
   getOperatorToken tk]

/-! ## Lexical coverage: concatenation and contiguous positions -/

/-- Concatenation of token values. -/
def concatVals (toks : List IToken) : List Char :=
  toks.foldr (fun t acc => t.value ++ acc) []

/-- Position ranges chain contiguously from a given offset, each range
being exactly the token value length wide. -/
def contigFrom : Nat → List IToken → Bool
  | _, [] => true
  | p, t :: rest =>
    decide (t.position = (p, p + t.value.length)) && contigFrom (p + t.value.length) rest

/-- The regexes a Tokenizer instance can classify with, in chain order. -/
def activeRegexes (tk : Tokenizer) : List Rx :=
  [tk.WHITESPACE_REGEX, tk.LINE_COMMENT_REGEX, tk.BLOCK_COMMENT_REGEX,
   tk.STRING_REGEX, tk.OPEN_PAREN_REGEX, tk.CLOSE_PAREN_REGEX] ++
  tk.IDENT_NAMED_PLACEHOLDER_REGEX.toList ++
  tk.STRING_NAMED_PLACEHOLDER_REGEX.toList ++
  tk.INDEXED_PLACEHOLDER_REGEX.toList ++
  [tk.NUMBER_REGEX, tk.RESERVED_TOPLEVEL_REGEX, tk.RESERVED_NEWLINE_REGEX,
   tk.RESERVED_PLAIN_REGEX, tk.WORD_REGEX, tk.OPERATOR_REGEX]

/-! ## The parser-combinator engine and the SQL grammar

The grammar functions live in the source file, but the combinator
engine they are written against (chain, execChain, Scanner, matchWord,
matchString, matchNumber, many, optional, plus, and the helpers
createFourOperations and binaryRecursionToArray) is imported from a
parser module that is not part of the sources.  The engine below is
modelled from the specification, sections 4.2 and 4.3: rule
descriptors for terminals, sequences, ordered choice, optional and
repeated matches and lazy named references; matching walks a token
cursor, skips whitespace and comment tokens at terminals, tries choice
alternatives strictly in order, backtracks failed sequences, and
threads transform functions bottom up.  Keyword terminals compare
case-insensitively, as SQL keywords require (the specification test
scenarios match upper-case inputs against lower-case grammar
literals). -/

/-- AST values produced by transforms: null for a failed optional, a
matched token, a string, an ordered tuple or list, or a tagged object. -/
inductive JVal
  | null
  | tok (t : IToken)
  | str (s : String)
  | list (l : List JVal)
  | obj (fs : List (String × JVal))

/-- View a value as a tuple. -/
def asList : JVal → List JVal
  | .list l => l
  | v => [v]

/-- Indexing with null default, the ast bracket access of the source
transforms. -/
def getIdx (l : List JVal) (i : Nat) : JVal :=
  l.getD i .null

/-- Modelled from the spec: binaryRecursionToArray flattens a match of
shape item followed by a list of separator-item pairs into a single
left-to-right ordered sequence of items. -/
def flattenIter : JVal → JVal
  | .list [_, x] => x
  | v => v

/-- The transform functions appearing in the grammar layer. -/
inductive Tf
  | tuple
  | first
  | second
  | selectObj
  | binToArray

/-- Application of a transform to the tuple of sub-results: no
transform returns the raw tuple; first and second project; selectObj
builds the select statement node of the source; binToArray flattens a
separated list. -/
def applyTf : Tf → List JVal → JVal
  | .tuple, l => .list l
  | .first, l => getIdx l 0
  | .second, l => getIdx l 1
  | .selectObj, l => .obj
      [("type", .str ("statement")), ("variant", .str ("select")),
       ("result", getIdx l 1), ("from", getIdx l 2)]
  | .binToArray, l => .list (getIdx l 0 :: (asList (getIdx l 1)).map flattenIter)

/-- Names of the grammar rules of the source, one per function. -/
inductive RName
  | root
  | statements
  | statement
  | selectStatement
  | union
  | fromClause
  | selectList
  | whereStatement
  | selectField
  | fieldList
  | tableSources
  | tableSource
  | tableSourceItem
  | joinPart
  | aliasR
  | createTableStatement
  | tableOptions
  | tableOption
  | tableName
  | createViewStatement
  | insertStatement
  | selectFieldsInfo
  | selectFields
  | groupByStatement
  | orderByClause
  | orderByExpressionList
  | orderByExpression
  | limitClause
  | functionChain
  | functionFields
  | functionFieldItem
  | ifFunction
  | castFunction
  | normalFunction
  | caseStatement
  | caseAlternative
  | setStatement
  | variableAssignments
  | variableAssignment
  | dataType
  | expression
  | expressionHead
  | booleanPrimary
  | predicate
  | isOrNotExpression
  | fieldItem
  | field
  | indexStatement
  | indexItem
  | onStatement
  | fieldForIndex
  | fieldForIndexList
  | wordChain
  | stringChain
  | numberChain
  | stringOrWord
  | stringOrWordOrNumber
  | logicalOperator
  | comparisonOperator
  | notOperator
  | selectSpec

/-- Rule descriptors: a literal keyword or symbol terminal, the word,
string and number class terminals, a sequence with its transform, an
ordered choice, an optional wrapper, zero-or-more and one-or-more
repetition, a lazy reference to a named rule, and the precedence layer
createFourOperations builds over an atom rule. -/
inductive PRule
  | lit (s : String)
  | word
  | strTok
  | numTok
  | seqn (items : List PRule) (tf : Tf)
  | choice (alts : List PRule)
  | popt (items : List PRule)
  | many0 (items : List PRule)
  | many1 (items : List PRule)
  | ref (r : RName)
  | fourOps (atom : RName)

/-- Token types skipped transparently by terminals. -/
def isSkipTy : TType → Bool
  | .WHITESPACE => true
  | .LINE_COMMENT => true
  | .BLOCK_COMMENT => true
  | _ => false

/-- Index of the next non-skippable token at or after i. -/
def skipIdx (ts : List IToken) : Nat → Nat → Nat
  | 0, i => i
  | f + 1, i =>
    match ts.get? i with
    | none => i
    | some t => if isSkipTy t.type then skipIdx ts f (i + 1) else i

/-- Skip whitespace and comments from index i. -/
def skipWs (ts : List IToken) (i : Nat) : Nat :=
  skipIdx ts (ts.length + 1) i

/-- Case-insensitive keyword comparison. -/
def litMatches (v : List Char) (s : String) : Bool :=
  decide (v.map lowc = s.toList.map lowc)

/-- Modelled from the spec: the arithmetic and bit operators consumed
greedily by the createFourOperations precedence layer. -/
def fourOpWords : List String :=
  ["+", "-", "*", "/", "%", "div", "mod", "<<", ">>", "&", "^", "|"]

/-- Whether a token value is one of the precedence layer operators. -/
def isFourOp (v : List Char) : Bool :=
  fourOpWords.any fun s => litMatches v s

/-- A single-item wrapper yields its item value, a multi-item wrapper
the tuple, for optional and repetition results. -/
def iterVal (items : List PRule) (v : JVal) : JVal :=
  match items with
  | [_] => getIdx (asList v) 0
  | _ => v

/-- Left-associative operator chain node of the precedence layer. -/
def binOpObj (op : IToken) (l r : JVal) : JVal :=
  .obj [("type", .str ("binaryExpression")), ("operator", .tok op),
        ("left", l), ("right", r)]

/-- Work items of the matcher: one rule, a sequence of items, ordered
alternatives, a repetition loop, and the operator-atom loop of the
precedence layer carrying the value built so far. -/
inductive PJob
  | run (r : PRule)
  | rseq (rs : List PRule)
  | ralt (rs : List PRule)
  | riter (rs : List PRule)
  | rfour (atom : RName) (left : JVal)

/-- The matcher, modelled from the spec: interprets a compiled rule
over the token list from an index, returning the produced value and
the next index on success.  Terminals skip whitespace and comments and
advance one token; sequences fail as a whole, restoring the position
by construction; choices commit to the first success; optional and
zero-or-more never fail; the precedence layer greedily consumes
operator-atom pairs and folds them to the left.  Fuel bounds the
recursion depth and is ample for every call below. -/
def execP (env : RName → PRule) (ts : List IToken) : Nat → PJob → Nat →
    Option (JVal × Nat)
  | 0, _, _ => none
  | Nat.succ f, job, i =>
    match job with
    | .run r =>
      match r with
      | .lit s =>
        match ts.get? (skipWs ts i) with
        | none => none
        | some t => if litMatches t.value s then some (.tok t, skipWs ts i + 1) else none
      | .word =>
        match ts.get? (skipWs ts i) with
        | none => none
        | some t => if t.type = TType.WORD then some (.tok t, skipWs ts i + 1) else none
      | .strTok =>
        match ts.get? (skipWs ts i) with
        | none => none
        | some t => if t.type = TType.STRING then some (.tok t, skipWs ts i + 1) else none
      | .numTok =>
        match ts.get? (skipWs ts i) with
        | none => none
        | some t => if t.type = TType.NUMBER then some (.tok t, skipWs ts i + 1) else none
      | .seqn items tf =>
        match execP env ts f (.rseq items) i with
        | some (v, j) => some (applyTf tf (asList v), j)
        | none => none
      | .choice alts => execP env ts f (.ralt alts) i
      | .popt items =>
        match execP env ts f (.rseq items) i with
        | some (v, j) => some (iterVal items v, j)
        | none => some (.null, i)
      | .many0 items => execP env ts f (.riter items) i
      | .many1 items =>
        match execP env ts f (.rseq items) i with
        | some (v, j) =>
          match execP env ts f (.riter items) j with
          | some (rv, k) => some (.list (iterVal items v :: asList rv), k)
          | none => none
        | none => none
      | .ref n => execP env ts f (.run (env n)) i
      | .fourOps n =>
        match execP env ts f (.run (env n)) i with
        | some (v, j) => execP env ts f (.rfour n v) j
        | none => none
    | .rseq [] => some (.list [], i)
    | .rseq (r :: rs) =>
      match execP env ts f (.run r) i with
      | some (v, j) =>
        match execP env ts f (.rseq rs) j with
        | some (vs, k) => some (.list (v :: asList vs), k)
        | none => none
      | none => none
    | .ralt [] => none
    | .ralt (r :: rs) =>
      match execP env ts f (.run r) i with
      | some res => some res
      | none => execP env ts f (.ralt rs) i
    | .riter items =>
      match execP env ts f (.rseq items) i with
      | some (v, j) =>
        match execP env ts f (.riter items) j with
        | some (rv, k) => some (.list (iterVal items v :: asList rv), k)
        | none => none
      | none => some (.list [], i)
    | .rfour n left =>
      match ts.get? (skipWs ts i) with
      | none => some (left, i)
      | some t =>
        if isFourOp t.value then
          match execP env ts f (.run (env n)) (skipWs ts i + 1) with
          | some (av, k) => execP env ts f (.rfour n (binOpObj t left av)) k
          | none => some (left, i)
        else some (left, i)

/-- The SQL grammar of the source, one environment entry per grammar
function, translated rule for rule: literals stay literals, bracketed
argument lists become ordered choices, optional and many and plus
wrappers map to the corresponding descriptors, bare function references
become lazy named references, and each trailing transform is the Tf
value of the corresponding arrow function. -/
def gramEnv : RName → PRule
  | .root => .seqn [.ref .statements, .popt [.lit (";")]] .first
  | .statements => .seqn [.ref .statement, .many0 [.lit (";"), .ref .statement]] .binToArray
  | .statement => .seqn [.choice [.ref .selectStatement, .ref .createTableStatement,
      .ref .insertStatement, .ref .createViewStatement, .ref .setStatement,
      .ref .indexStatement]] .first
  | .selectStatement => .seqn [.lit ("select"), .ref .selectList, .ref .fromClause,
      .popt [.ref .orderByClause], .popt [.ref .limitClause],
      .popt [.ref .union, .ref .selectStatement]] .selectObj
  | .union => .seqn [.lit ("union"), .choice [.lit ("all"), .lit ("distinct")]] .tuple
  | .fromClause => .seqn [.lit ("from"), .ref .tableSources,
      .popt [.ref .whereStatement], .popt [.ref .groupByStatement]] .tuple
  | .selectList => .seqn [.ref .selectField, .many0 [.lit (","), .ref .selectField]] .tuple
  | .whereStatement => .seqn [.lit ("where"), .ref .expression] .second
  | .selectField => .seqn [.choice
      [.seqn [.choice
        [.seqn [.many0 [.lit ("not")], .ref .field] .tuple,
         .seqn [.many0 [.lit ("not")], .lit ("("), .ref .field, .lit (")")] .tuple,
         .ref .caseStatement], .popt [.ref .aliasR]] .tuple,
       .lit ("*")]] .tuple
  | .fieldList => .seqn [.ref .field, .many0 [.lit (","), .ref .field]] .tuple
  | .tableSources => .seqn [.ref .tableSource, .many0 [.lit (","), .ref .tableSource]] .tuple
  | .tableSource => .seqn [.choice
      [.seqn [.ref .tableSourceItem, .many0 [.ref .joinPart]] .tuple,
       .seqn [.lit ("("), .ref .tableSourceItem, .many0 [.ref .joinPart], .lit (")")] .tuple],
      .popt [.ref .aliasR]] .tuple
  | .tableSourceItem => .seqn [.choice
      [.seqn [.ref .tableName, .popt [.ref .aliasR]] .tuple,
       .seqn [.choice [.ref .selectStatement,
          .seqn [.lit ("("), .ref .selectStatement, .lit (")")] .tuple],
         .popt [.ref .aliasR]] .tuple,
       .seqn [.lit ("("), .ref .tableSources, .lit (")")] .tuple]] .tuple
  | .joinPart => .seqn [.choice
      [.seqn [.choice [.lit ("inner"), .lit ("cross")], .lit ("join"),
         .ref .tableSourceItem, .popt [.lit ("on"), .ref .expression]] .tuple,
       .seqn [.lit ("straight_join"), .ref .tableSourceItem,
         .popt [.lit ("on"), .ref .expression]] .tuple,
       .seqn [.choice [.lit ("left"), .lit ("right")], .popt [.lit ("outer")],
         .lit ("join"), .ref .tableSourceItem, .popt [.lit ("on"), .ref .expression]] .tuple,
       .seqn [.lit ("natural"),
         .popt [.choice [.lit ("left"), .lit ("right")], .popt [.lit ("outer")]],
         .lit ("join"), .ref .tableSourceItem] .tuple]] .tuple
  | .aliasR => .seqn [.choice
      [.seqn [.lit ("as"), .ref .stringOrWord] .tuple, .ref .stringOrWord]] .tuple
  | .createTableStatement => .seqn [.lit ("create"), .lit ("table"), .ref .stringOrWord,
      .lit ("("), .ref .tableOptions, .lit (")")] .tuple
  | .tableOptions => .seqn [.ref .tableOption, .many0 [.lit (","), .ref .tableOption]] .tuple
  | .tableOption => .seqn [.ref .stringOrWord, .ref .dataType] .tuple
  | .tableName => .seqn [.choice [.ref .wordChain,
      .seqn [.ref .wordChain, .lit ("."), .ref .wordChain] .tuple]] .tuple
  | .createViewStatement => .seqn [.lit ("create"), .lit ("view"), .ref .wordChain,
      .lit ("as"), .ref .selectStatement] .tuple
  | .insertStatement => .seqn [.lit ("insert"), .popt [.lit ("ignore")], .lit ("into"),
      .ref .tableName, .popt [.ref .selectFieldsInfo], .choice [.ref .selectStatement]] .tuple
  | .selectFieldsInfo => .seqn [.lit ("("), .ref .selectFields, .lit (")")] .tuple
  | .selectFields => .seqn [.ref .wordChain, .many0 [.lit (","), .ref .wordChain]] .tuple
  | .groupByStatement => .seqn [.lit ("group"), .lit ("by"), .ref .fieldList] .tuple
  | .orderByClause => .seqn [.lit ("order"), .lit ("by"), .ref .fieldList] .tuple
  | .orderByExpressionList => .seqn [.ref .orderByExpression,
      .popt [.lit (","), .ref .orderByExpressionList]] .tuple
  | .orderByExpression => .seqn [.ref .expression,
      .choice [.lit ("asc"), .lit ("desc")]] .tuple
  | .limitClause => .seqn [.lit ("limit"), .choice
      [.ref .numberChain,
       .seqn [.ref .numberChain, .lit (","), .ref .numberChain] .tuple,
       .seqn [.ref .numberChain, .lit ("offset"), .ref .numberChain] .tuple]] .tuple
  | .functionChain => .seqn [.choice [.ref .castFunction, .ref .normalFunction,
      .ref .ifFunction]] .tuple
  | .functionFields => .seqn [.ref .functionFieldItem,
      .many0 [.lit (","), .ref .functionFieldItem]] .tuple
  | .functionFieldItem => .seqn [.many0 [.ref .selectSpec],
      .choice [.ref .field, .ref .caseStatement]] .tuple
  | .ifFunction => .seqn [.lit ("if"), .lit ("("), .ref .predicate, .lit (","),
      .ref .field, .lit (","), .ref .field, .lit (")")] .tuple
  | .castFunction => .seqn [.lit ("cast"), .lit ("("), .ref .wordChain, .lit ("as"),
      .ref .dataType, .lit (")")] .tuple
  | .normalFunction => .seqn [.ref .wordChain, .lit ("("),
      .popt [.ref .functionFields], .lit (")")] .tuple
  | .caseStatement => .seqn [.lit ("case"), .many1 [.ref .caseAlternative],
      .popt [.lit ("else"), .choice [.ref .stringChain, .lit ("null"), .ref .numberChain]],
      .lit ("end")] .tuple
  | .caseAlternative => .seqn [.lit ("when"), .ref .expression, .lit ("then"),
      .ref .fieldItem] .tuple
  | .setStatement => .seqn [.lit ("set"), .choice [.ref .variableAssignments]] .tuple
  | .variableAssignments => .seqn [.ref .variableAssignment,
      .many0 [.lit (","), .ref .variableAssignment]] .tuple
  | .variableAssignment => .seqn [.ref .fieldItem, .lit ("="),
      .choice [.ref .fieldItem, .lit ("true")]] .tuple
  | .dataType => .seqn [.choice
      [.seqn [.choice [.lit ("char"), .lit ("varchar"), .lit ("tinytext"), .lit ("text"),
         .lit ("mediumtext"), .lit ("longtext")]] .tuple,
       .seqn [.choice [.lit ("tinyint"), .lit ("smallint"), .lit ("mediumint"),
         .lit ("int"), .lit ("integer"), .lit ("bigint")]] .tuple,
       .seqn [.choice [.lit ("real"), .lit ("double"), .lit ("float")]] .tuple,
       .seqn [.choice [.lit ("decimal"), .lit ("numberic")]] .tuple,
       .seqn [.choice [.lit ("date"), .lit ("tinyblob"), .lit ("blob"),
         .lit ("mediumblob"), .lit ("longblob"), .lit ("bool"), .lit ("boolean")]] .tuple,
       .seqn [.choice [.lit ("bit"), .lit ("time"), .lit ("timestamp"), .lit ("datetime"),
         .lit ("binary"), .lit ("varbinary"), .lit ("year")]] .tuple,
       .seqn [.choice [.lit ("enum"), .lit ("set")]] .tuple,
       .seqn [.lit ("geometrycollection"), .lit ("linestring"), .lit ("multilinestring"),
         .lit ("multipoint"), .lit ("multipolygon"), .lit ("point"),
         .lit ("polygon")] .tuple]] .first
  | .expression => .seqn [.ref .expressionHead,
      .many0 [.ref .logicalOperator, .ref .expression]] .tuple
  | .expressionHead => .seqn [.choice
      [.seqn [.lit ("("), .ref .expression, .lit (")")] .tuple,
       .seqn [.ref .notOperator, .ref .expression] .tuple,
       .seqn [.ref .booleanPrimary, .popt [.seqn [.lit ("is"), .popt [.lit ("not")],
         .choice [.lit ("true"), .lit ("false"), .lit ("unknown")]] .tuple]] .tuple]] .tuple
  | .booleanPrimary => .seqn [.ref .predicate, .many0 [.choice
      [.lit ("isnull"),
       .seqn [.popt [.lit ("is")], .popt [.lit ("not")],
         .choice [.lit ("null"), .ref .field]] .tuple,
       .seqn [.ref .comparisonOperator, .ref .predicate] .tuple]]] .tuple
  | .predicate => .seqn [.ref .field, .popt [.choice
      [.seqn [.ref .comparisonOperator, .choice [.ref .field, .lit ("null")]] .tuple,
       .seqn [.lit ("sounds"), .lit ("like"), .ref .field] .tuple,
       .ref .isOrNotExpression]]] .tuple
  | .isOrNotExpression => .seqn [.popt [.lit ("is")], .popt [.lit ("not")], .choice
      [.seqn [.lit ("in"), .lit ("("), .ref .fieldList, .lit (")")] .tuple,
       .seqn [.lit ("between"), .ref .field, .lit ("and"), .ref .predicate] .tuple,
       .seqn [.lit ("like"), .ref .field, .popt [.lit ("escape"), .ref .field]] .tuple,
       .seqn [.lit ("regexp"), .ref .field] .tuple]] .tuple
  | .fieldItem => .seqn [.choice
      [.ref .functionChain,
       .seqn [.ref .stringOrWordOrNumber,
         .choice [.popt [.lit ("."), .lit ("*")],
           .many1 [.lit ("."), .ref .stringOrWordOrNumber]]] .tuple,
       .lit ("*")]] .first
  | .field => .fourOps .fieldItem
  | .indexStatement => .seqn [.lit ("CREATE"), .lit ("INDEX"), .ref .indexItem,
      .ref .onStatement, .ref .whereStatement] .tuple
  | .indexItem => .seqn [.ref .stringChain, .many0 [.lit ("."), .ref .stringChain]] .tuple
  | .onStatement => .seqn [.lit ("ON"), .ref .stringChain, .lit ("("),
      .ref .fieldForIndexList, .lit (")")] .tuple
  | .fieldForIndex => .seqn [.ref .stringChain,
      .popt [.choice [.lit ("ASC"), .lit ("DESC")]]] .tuple
  | .fieldForIndexList => .seqn [.ref .fieldForIndex,
      .many0 [.lit (","), .ref .fieldForIndex]] .tuple
  | .wordChain => .seqn [.word] .first
  | .stringChain => .seqn [.strTok] .first
  | .numberChain => .seqn [.numTok] .first
  | .stringOrWord => .seqn [.choice [.ref .wordChain, .ref .stringChain]] .first
  | .stringOrWordOrNumber => .seqn [.choice [.ref .wordChain, .ref .stringChain,
      .ref .numberChain]] .first
  | .logicalOperator => .seqn [.choice [.lit ("and"), .lit ("&&"), .lit ("xor"),
      .lit ("or"), .lit ("||")]] .first
  | .comparisonOperator => .seqn [.choice [.lit ("="), .lit (">"), .lit ("<"),
      .lit ("<="), .lit (">="), .lit ("<>"), .lit ("!="), .lit ("<=>")]] .first
  | .notOperator => .seqn [.choice [.lit ("not"), .lit ("!")]] .first
  | .selectSpec => .seqn [.choice [.lit ("all"), .lit ("distinct"), .lit ("distinctrow"),
      .lit ("high_priority"), .lit ("straight_join"), .lit ("sql_small_result"),
      .lit ("sql_big_result"), .lit ("sql_buffer_result"), .lit ("sql_cache"),
      .lit ("sql_no_cache"), .lit ("sql_calc_found_rows")]] .first

/-- Parse results of the facade: a success flag, the produced value on
success, and the index reached. -/
structure ParseResult where
  success : Bool
  ast : Option JVal
  nextIndex : Nat

/-- Ample fuel for the matcher recursion depth on the inputs below. -/
def pFuel : Nat := 512

/-- The parse entry point of SQLAstParser: run the root rule over the
token sequence from the given index and apply the final first-element
callback of the source. -/
def sqlParse (ts : List IToken) (startIndex : Nat) : ParseResult :=
  match execP gramEnv ts pFuel (.run (.ref .root)) startIndex with
  | some (v, j) => { success := true, ast := some (getIdx (asList v) 0), nextIndex := j }
  | none => { success := false, ast := none, nextIndex := startIndex }

/-- A token literal helper. -/
def mkT (ty : TType) (v : String) (a b : Nat) : IToken :=
  { type := ty, value := v.toList, key := none, position := (a, b) }

/-- The token sequence of SELECT a, b FROM t WHERE a > 1: keywords as
toplevel reserved words, identifiers as generic word tokens as the
specification assigns them, whitespace between all of them, punctuation
as operator tokens and the literal as a number token. -/
def demoTokens : List IToken :=
  [mkT .RESERVED_TOPLEVEL ("SELECT") 0 6, mkT .WHITESPACE (" ") 6 7,
   mkT .WORD ("a") 7 8, mkT .OPERATOR (",") 8 9, mkT .WHITESPACE (" ") 9 10,
   mkT .WORD ("b") 10 11, mkT .WHITESPACE (" ") 11 12,
   mkT .RESERVED_TOPLEVEL ("FROM") 12 16, mkT .WHITESPACE (" ") 16 17,
   mkT .WORD ("t") 17 18, mkT .WHITESPACE (" ") 18 19,
   mkT .RESERVED_TOPLEVEL ("WHERE") 19 24, mkT .WHITESPACE (" ") 24 25,
   mkT .WORD ("a") 25 26, mkT .WHITESPACE (" ") 26 27,
   mkT .OPERATOR (">") 27 28, mkT .WHITESPACE (" ") 28 29,
   mkT .NUMBER ("1") 29 30]

/-- Field lookup on object values. -/
def JVal.getField : JVal → String → Option JVal
  | .obj fs, k => (fs.find? fun p => decide (p.1 = k)).map Prod.snd
  | _, _ => none

/-- String extraction. -/
def JVal.asStr : JVal → Option String
  | .str s => some s
  | _ => none

/-- The variant field of a parse result. -/
def variantOf (r : ParseResult) : Option String :=
  r.ast.bind fun v => (v.getField ("variant")).bind JVal.asStr

/-- Walk a tuple path. -/
def atPath : JVal → List Nat → JVal
  | v, [] => v
  | v, i :: is => atPath (getIdx (asList v) i) is

/-- Token value extraction. -/
def tokValue : JVal → Option (List Char)
  | .tok t => some t.value
  | _ => none

/-- The from clause tuple of a select result. -/
def fromClauseOf (r : ParseResult) : Option JVal :=
  r.ast.bind fun v => v.getField ("from")

/-- The name of the first table of the from clause: index 1 of the from
tuple is the table sources value, and the path descends through the
tuple nesting to the word token of the table name. -/
def fromTableOf (r : ParseResult) : Option (List Char) :=
  (fromClauseOf r).bind fun v => tokValue (atPath v [1, 0, 0, 0, 0, 0, 0])

/-- Null test. -/
def isNullV : JVal → Bool
  | .null => true
  | _ => false

/-- Whether the where clause of the from tuple is present. -/
def wherePresent (r : ParseResult) : Bool :=
  match fromClauseOf r with
  | some v => !(isNullV (atPath v [2]))
  | none => false

/-! ## Claim-level configurations and inputs -/

/-- The standard configuration with an empty plain reserved word list:
the join of an empty list is an empty pattern, so the plain reserved
regex matches the empty string at any word boundary. -/
def cfgNoPlainReservedC : Cfg := { cfgStd with reservedWords := some [] }

/-- The standard configuration with an empty open paren list: the open
paren regex becomes an empty group matching the empty string. -/
def cfgNoOpenParensC : Cfg := { cfgStd with openParens := some [] }

/-- The standard configuration with an empty line comment list: the
line comment regex degenerates to an empty prefix alternation followed
by a lazy dot-star, which matches any line. -/
def cfgNoLineCommentsC : Cfg := { cfgStd with lineCommentTypes := some [] }

/-- The standard configuration with line comments absent entirely: the
constructor dereferences the list and raises. -/
def cfgMissingLineComments : Cfg := { cfgStd with lineCommentTypes := none }

/-- The standard configuration with the toplevel reserved word list
absent: the constructor dereferences it and raises. -/
def cfgMissingToplevel : Cfg := { cfgStd with reservedToplevelWords := none }

/-- The standard configuration with the newline reserved word list
absent: the constructor dereferences it and raises. -/
def cfgMissingNewline : Cfg := { cfgStd with reservedNewlineWords := none }

/-- The standard configuration with the plain reserved word list
absent: the constructor dereferences it and raises. -/
def cfgMissingReserved : Cfg := { cfgStd with reservedWords := none }

/-- The standard configuration with the string type list absent: the
constructor dereferences it and raises. -/
def cfgMissingStringTypes : Cfg := { cfgStd with stringTypes := none }

/-- The standard configuration with the open paren list absent: the
constructor dereferences it and raises. -/
def cfgMissingOpenParens : Cfg := { cfgStd with openParens := none }

/-- The standard configuration with the close paren list absent: the
constructor dereferences it and raises. -/
def cfgMissingCloseParens : Cfg := { cfgStd with closeParens := none }

/-- The standard configuration with the word character list absent:
createWordRegex has a default empty list parameter, so this one is
silently accepted, and the resulting empty pattern matches the empty
string on any input rather than disabling the class. -/
def cfgMissingWordChars : Cfg := { cfgStd with wordChars := none }

/-- An internally inconsistent configuration: named placeholder
prefixes are configured but the string type list is empty, so the
string-named placeholder pattern has no quoted body. -/
def cfgInconsistentC : Cfg := { cfgStd with stringTypes := some [] }

/-- The string-named placeholder input of the specification: at sign,
quote, a, backslash, quote, b, quote. -/
def c5Input : List Char := '@' :: sqc :: 'a' :: bsc :: sqc :: 'b' :: sqc :: []

/-- A two-escape variant of the same input. -/
def c5TwoInput : List Char :=
  '@' :: sqc :: 'a' :: bsc :: sqc :: 'b' :: bsc :: sqc :: 'c' :: sqc :: []

/-- The tokens of the witness input select space one. -/
def c1Toks : List IToken :=
  [mkT .RESERVED_TOPLEVEL ("select") 0 6, mkT .WHITESPACE (" ") 6 7,
   mkT .NUMBER ("1") 7 8]

/-! ## Theorems -/

/-- The standard Tokenizer is exactly what the constructor builds from
the standard configuration. -/
theorem tkStd_from_cfgStd : Tokenizer.create cfgStd = .ok tkStd := rfl
/-- Soundness of minOne: a candidate of a minOne pattern is at least 1. -/
theorem minOne_sound : ∀ (f : Nat) (re : Rx) (p : Option Char) (s : List Char) (n : Nat),
    minOne re = true → n ∈ cands f re p s → 1 ≤ n := by
  intro f
  induction f with
  | zero => intro re p s n _ h; simp [cands] at h
  | succ f ih =>
    intro re p s n hm hn
    cases re with
    | eps => simp [minOne] at hm
    | anyc =>
      cases s with
      | nil => simp [cands] at hn
      | cons c cs => simp [cands] at hn; omega
    | dotc =>
      cases s with
      | nil => simp [cands] at hn
      | cons c cs => simp [cands] at hn; omega
    | ch c =>
      cases s with
      | nil => simp [cands] at hn
      | cons d cs => simp [cands] at hn; omega
    | chCI c =>
      cases s with
      | nil => simp [cands] at hn
      | cons d cs => simp [cands] at hn; omega
    | cc k =>
      cases s with
      | nil => simp [cands] at hn
      | cons d cs => simp [cands] at hn; omega
    | seq a b =>
      simp [cands, List.mem_flatMap] at hn
      obtain ⟨na, hna, m, hm2, rfl⟩ := hn
      simp [minOne] at hm
      rcases hm with hma | hmb
      · have := ih a p s na hma hna; omega
      · have := ih b (prevAfter p s na) (s.drop na) m hmb hm2; omega
    | alt a b =>
      simp [cands] at hn
      simp [minOne] at hm
      rcases hn with h | h
      · exact ih a p s n hm.1 h
      · exact ih b p s n hm.2 h
    | star a => simp [minOne] at hm
    | starL a => simp [minOne] at hm
    | plus a =>
      simp [minOne] at hm
      simp [cands, List.mem_flatMap] at hn
      obtain ⟨na, hna, h⟩ := hn
      by_cases hz : na = 0
      · have := ih a p s na hm hna; omega
      · simp [hz] at h
        obtain ⟨m, _, rfl⟩ := h
        have := ih a p s na hm hna; omega
    | opt a => simp [minOne] at hm
    | bnd => simp [minOne] at hm
    | eos => simp [minOne] at hm

theorem orT_assoc (a b c : Option IToken) : orT (orT a b) c = orT a (orT b c) := by
  cases a <;> rfl

theorem orT_none (a : Option IToken) : orT a none = a := by
  cases a <;> rfl

theorem orT_noneL (b : Option IToken) : orT none b = b := rfl

/-- The classifier chain of getNextToken equals the ordered fold of the
thirteen classifiers in specification order. -/
theorem getNextToken_eq_firstSome (tk : Tokenizer) (s : List Char)
    (prev : Option IToken) :
    getNextToken tk s prev = firstSome (classifierChain tk prev) s := by
  unfold getNextToken getCommentToken getPlaceholderToken getReservedWordToken
  unfold classifierChain firstSome
  simp only [List.foldr]
  by_cases hd : dotPrev prev
  · simp only [hd, Bool.cond_true, orT_assoc, orT_none, orT_noneL]
  · simp only [hd, Bool.cond_false, orT_assoc, orT_none, orT_noneL]

theorem getTokenOnFirstMatch_shape {re : Rx} {ty : TType} {s : List Char} {t : IToken}
    (h : getTokenOnFirstMatch (some re) ty s = some t) :
    ∃ n, jsMatch re s = some n ∧ t.value = s.take n := by
  rw [getTokenOnFirstMatch] at h
  cases hm : jsMatch re s with
  | none => rw [hm] at h; exact absurd h (by simp)
  | some n =>
    rw [hm] at h
    refine ⟨n, rfl, ?_⟩
    cases h
    rfl

theorem getPlaceholderTokenWithKey_shape {r : Option Rx} {pk : List Char → List Char}
    {s : List Char} {t : IToken}
    (h : getPlaceholderTokenWithKey r pk s = some t) :
    ∃ re, r = some re ∧ ∃ n, jsMatch re s = some n ∧ t.value = s.take n := by
  unfold getPlaceholderTokenWithKey at h
  cases r with
  | none => simp [getTokenOnFirstMatch] at h
  | some re =>
    refine ⟨re, rfl, ?_⟩
    cases hg : getTokenOnFirstMatch (some re) .PLACEHOLDER s with
    | none => rw [hg] at h; exact absurd h (by simp)
    | some t0 =>
      rw [hg] at h
      obtain ⟨n, hj, hv⟩ := getTokenOnFirstMatch_shape hg
      cases h
      exact ⟨n, hj, hv⟩

theorem firstSome_mem {fs : List (List Char → Option IToken)} {s : List Char} {t : IToken}
    (h : firstSome fs s = some t) : ∃ f ∈ fs, f s = some t := by
  induction fs with
  | nil => simp [firstSome, List.foldr] at h
  | cons f fs ih =>
    rw [firstSome, List.foldr] at h
    cases hf : f s with
    | some t0 =>
      rw [hf] at h
      cases h
      exact ⟨f, List.mem_cons_self f fs, hf⟩
    | none =>
      rw [hf] at h
      obtain ⟨g, hg, hgs⟩ := ih h
      exact ⟨g, List.mem_cons_of_mem f hg, hgs⟩

/-- Every token produced by getNextToken is a take-prefix of the input,
matched by one of the active regexes. -/
theorem nextToken_shape {tk : Tokenizer} {s : List Char} {prev : Option IToken}
    {t : IToken} (h : getNextToken tk s prev = some t) :
    ∃ re ∈ activeRegexes tk, ∃ n, jsMatch re s = some n ∧ t.value = s.take n := by
  rw [getNextToken_eq_firstSome] at h
  obtain ⟨f, hf, hfs⟩ := firstSome_mem h
  simp only [classifierChain, List.mem_cons, List.not_mem_nil, or_false] at hf
  rcases hf with rfl | rfl | rfl | rfl | rfl | rfl | rfl | rfl | rfl | rfl | rfl | rfl | rfl | rfl | rfl
  · obtain ⟨n, hj, hv⟩ := getTokenOnFirstMatch_shape hfs
    exact ⟨tk.WHITESPACE_REGEX, by simp [activeRegexes], n, hj, hv⟩
  · obtain ⟨n, hj, hv⟩ := getTokenOnFirstMatch_shape hfs
    exact ⟨tk.LINE_COMMENT_REGEX, by simp [activeRegexes], n, hj, hv⟩
  · obtain ⟨n, hj, hv⟩ := getTokenOnFirstMatch_shape hfs
    exact ⟨tk.BLOCK_COMMENT_REGEX, by simp [activeRegexes], n, hj, hv⟩
  · obtain ⟨n, hj, hv⟩ := getTokenOnFirstMatch_shape hfs
    exact ⟨tk.STRING_REGEX, by simp [activeRegexes], n, hj, hv⟩
  · obtain ⟨n, hj, hv⟩ := getTokenOnFirstMatch_shape hfs
    exact ⟨tk.OPEN_PAREN_REGEX, by simp [activeRegexes], n, hj, hv⟩
  · obtain ⟨n, hj, hv⟩ := getTokenOnFirstMatch_shape hfs
    exact ⟨tk.CLOSE_PAREN_REGEX, by simp [activeRegexes], n, hj, hv⟩
  · obtain ⟨re, hre, n, hj, hv⟩ := getPlaceholderTokenWithKey_shape hfs
    exact ⟨re, by simp [activeRegexes, hre], n, hj, hv⟩
  · obtain ⟨re, hre, n, hj, hv⟩ := getPlaceholderTokenWithKey_shape hfs
    exact ⟨re, by simp [activeRegexes, hre], n, hj, hv⟩
  · obtain ⟨re, hre, n, hj, hv⟩ := getPlaceholderTokenWithKey_shape hfs
    exact ⟨re, by simp [activeRegexes, hre], n, hj, hv⟩
  · obtain ⟨n, hj, hv⟩ := getTokenOnFirstMatch_shape hfs
    exact ⟨tk.NUMBER_REGEX, by simp [activeRegexes], n, hj, hv⟩
  · cases hd : dotPrev prev with
    | true => rw [hd] at hfs; exact absurd hfs (by simp [Bool.cond_true])
    | false =>
      rw [hd] at hfs
      obtain ⟨n, hj, hv⟩ := getTokenOnFirstMatch_shape hfs
      exact ⟨tk.RESERVED_TOPLEVEL_REGEX, by simp [activeRegexes], n, hj, hv⟩
  · cases hd : dotPrev prev with
    | true => rw [hd] at hfs; exact absurd hfs (by simp [Bool.cond_true])
    | false =>
      rw [hd] at hfs
      obtain ⟨n, hj, hv⟩ := getTokenOnFirstMatch_shape hfs
      exact ⟨tk.RESERVED_NEWLINE_REGEX, by simp [activeRegexes], n, hj, hv⟩
  · cases hd : dotPrev prev with
    | true => rw [hd] at hfs; exact absurd hfs (by simp [Bool.cond_true])
    | false =>
      rw [hd] at hfs
      obtain ⟨n, hj, hv⟩ := getTokenOnFirstMatch_shape hfs
      exact ⟨tk.RESERVED_PLAIN_REGEX, by simp [activeRegexes], n, hj, hv⟩
  · obtain ⟨n, hj, hv⟩ := getTokenOnFirstMatch_shape hfs
    exact ⟨tk.WORD_REGEX, by simp [activeRegexes], n, hj, hv⟩
  · obtain ⟨n, hj, hv⟩ := getTokenOnFirstMatch_shape hfs
    exact ⟨tk.OPERATOR_REGEX, by simp [activeRegexes], n, hj, hv⟩

theorem take_drop_self : ∀ (n : Nat) (s : List Char),
    s.take n ++ s.drop (s.take n).length = s := by
  intro n
  induction n with
  | zero => intro s; simp
  | succ n ih =>
    intro s
    cases s with
    | nil => simp
    | cons c cs => simpa using ih cs

/-- Invariant of the tokenize loop: a successful run concatenates back
to the input and carries contiguous positions from the start offset. -/
theorem tokenizeAux_inv (tk : Tokenizer) :
    ∀ (fuel : Nat) (s : List Char) (pos : Nat) (prev : Option IToken)
      (toks : List IToken), tokenizeAux tk fuel s pos prev = some toks →
      concatVals toks = s ∧ contigFrom pos toks = true := by
  intro fuel
  induction fuel with
  | zero =>
    intro s pos prev toks h
    cases s with
    | nil =>
      rw [tokenizeAux] at h
      cases h
      exact ⟨rfl, rfl⟩
    | cons c cs => exact absurd h (by rw [tokenizeAux]; simp)
  | succ f ih =>
    intro s pos prev toks h
    cases s with
    | nil =>
      rw [tokenizeAux] at h
      cases h
      exact ⟨rfl, rfl⟩
    | cons c cs =>
      rw [tokenizeAux] at h
      cases hn : getNextToken tk (c :: cs) prev with
      | none => rw [hn] at h; exact absurd h (by simp)
      | some t =>
        rw [hn] at h
        simp only [] at h
        by_cases hz : t.value.length = 0
        · rw [if_pos hz] at h; exact absurd h (by simp)
        · rw [if_neg hz] at h
          cases hrec : tokenizeAux tk f ((c :: cs).drop t.value.length)
              (pos + t.value.length)
              (some { t with position := (pos, pos + t.value.length) }) with
          | none => rw [hrec] at h; exact absurd h (by simp)
          | some rest =>
            rw [hrec] at h
            cases h
            obtain ⟨hc, hg⟩ := ih _ _ _ _ hrec
            obtain ⟨re, _, n, _, hv⟩ := nextToken_shape hn
            constructor
            · show t.value ++ concatVals rest = c :: cs
              rw [hc, hv]
              exact take_drop_self n (c :: cs)
            · show contigFrom pos ({ t with position := (pos, pos + t.value.length) } :: rest) = true
              rw [contigFrom]
              simp [hg]

/-- tokenize, when it returns, reproduces the input by concatenation and
covers it with contiguous non-overlapping position ranges from 0. -/
theorem tokenize_inv (tk : Tokenizer) (s : List Char) (toks : List IToken)
    (h : tokenize tk s = some toks) :
    concatVals toks = s ∧ contigFrom 0 toks = true :=
  tokenizeAux_inv tk s.length s 0 none toks h

/-! ## Membership and monotonicity of the match semantics -/

theorem cands_mono : ∀ (f f' : Nat), f ≤ f' → ∀ (re : Rx) (p : Option Char)
    (s : List Char) (n : Nat), n ∈ cands f re p s → n ∈ cands f' re p s := by
  intro f
  induction f with
  | zero => intro f' _ re p s n h; simp [cands] at h
  | succ f ih =>
    intro f' hle re p s n h
    obtain ⟨g, rfl⟩ : ∃ g, f' = Nat.succ g := ⟨f' - 1, by omega⟩
    have hf : f ≤ g := by omega
    cases re with
    | eps => simp only [cands] at h ⊢; exact h
    | anyc => simp only [cands] at h ⊢; exact h
    | dotc => simp only [cands] at h ⊢; exact h
    | ch c => simp only [cands] at h ⊢; exact h
    | chCI c => simp only [cands] at h ⊢; exact h
    | cc k => simp only [cands] at h ⊢; exact h
    | bnd => simp only [cands] at h ⊢; exact h
    | eos => simp only [cands] at h ⊢; exact h
    | seq a b =>
      simp only [cands] at h ⊢
      simp only [List.mem_flatMap, List.mem_map] at h ⊢
      obtain ⟨na, hna, m, hm, rfl⟩ := h
      exact ⟨na, ih g hf a p s na hna, m, ih g hf b _ _ m hm, rfl⟩
    | alt a b =>
      simp only [cands] at h ⊢
      rcases List.mem_append.mp h with h | h
      · exact List.mem_append.mpr (Or.inl (ih g hf a p s n h))
      · exact List.mem_append.mpr (Or.inr (ih g hf b p s n h))
    | star a =>
      simp only [cands] at h ⊢
      rcases List.mem_append.mp h with h | h
      · simp only [List.mem_flatMap] at h
        obtain ⟨na, hna, hbr⟩ := h
        refine List.mem_append.mpr (Or.inl ?_)
        simp only [List.mem_flatMap]
        refine ⟨na, ih g hf a p s na hna, ?_⟩
        by_cases hz : na = 0
        · simpa [hz] using (by simpa [hz] using hbr)
        · simp only [if_neg hz, List.mem_map] at hbr ⊢
          obtain ⟨m, hm, rfl⟩ := hbr
          exact ⟨m, ih g hf (.star a) _ _ m hm, rfl⟩
      · exact List.mem_append.mpr (Or.inr h)
    | starL a =>
      simp only [cands] at h ⊢
      rcases List.mem_cons.mp h with h | h
      · exact List.mem_cons.mpr (Or.inl h)
      · simp only [List.mem_flatMap] at h
        obtain ⟨na, hna, hbr⟩ := h
        refine List.mem_cons.mpr (Or.inr ?_)
        simp only [List.mem_flatMap]
        refine ⟨na, ih g hf a p s na hna, ?_⟩
        by_cases hz : na = 0
        · simp [hz] at hbr
        · simp only [if_neg hz, List.mem_map] at hbr ⊢
          obtain ⟨m, hm, rfl⟩ := hbr
          exact ⟨m, ih g hf (.starL a) _ _ m hm, rfl⟩
    | plus a =>
      simp only [cands] at h ⊢
      simp only [List.mem_flatMap] at h ⊢
      obtain ⟨na, hna, hbr⟩ := h
      refine ⟨na, ih g hf a p s na hna, ?_⟩
      by_cases hz : na = 0
      · simpa [hz] using (by simpa [hz] using hbr)
      · simp only [if_neg hz, List.mem_map] at hbr ⊢
        obtain ⟨m, hm, rfl⟩ := hbr
        exact ⟨m, ih g hf (.star a) _ _ m hm, rfl⟩
    | opt a =>
      simp only [cands] at h ⊢
      rcases List.mem_append.mp h with h | h
      · exact List.mem_append.mpr (Or.inl (ih g hf a p s n h))
      · exact List.mem_append.mpr (Or.inr h)

theorem mem_of_head? {l : List Nat} {n : Nat} (h : l.head? = some n) : n ∈ l := by
  cases l with
  | nil => simp at h
  | cons a l =>
    simp only [List.head?] at h
    cases h
    exact List.mem_cons_self _ _

theorem head?_of_mem {l : List Nat} {n : Nat} (h : n ∈ l) : ∃ m, l.head? = some m := by
  cases l with
  | nil => simp at h
  | cons a l => exact ⟨a, rfl⟩

theorem star_zero_mem (f : Nat) (a : Rx) (p : Option Char) (s : List Char) :
    (0 : Nat) ∈ cands (f + 1) (.star a) p s := by
  rw [show f + 1 = Nat.succ f from rfl, cands]
  simp

theorem mem_eps (f : Nat) (p : Option Char) (s : List Char) :
    (0 : Nat) ∈ cands (f + 1) .eps p s := by
  rw [show f + 1 = Nat.succ f from rfl, cands]; simp

theorem mem_eos (f : Nat) (p : Option Char) :
    (0 : Nat) ∈ cands (f + 1) .eos p [] := by
  rw [show f + 1 = Nat.succ f from rfl, cands]; simp

theorem mem_ch (f : Nat) (c : Char) (p : Option Char) (r : List Char) :
    (1 : Nat) ∈ cands (f + 1) (.ch c) p (c :: r) := by
  rw [show f + 1 = Nat.succ f from rfl, cands]; simp

theorem mem_cc {k : CClass} {c : Char} (hk : ccMatch k c = true) (f : Nat)
    (p : Option Char) (r : List Char) :
    (1 : Nat) ∈ cands (f + 1) (.cc k) p (c :: r) := by
  rw [show f + 1 = Nat.succ f from rfl, cands]; simp [hk]

theorem mem_dotc {c : Char} (hk : jsDotOk c = true) (f : Nat)
    (p : Option Char) (r : List Char) :
    (1 : Nat) ∈ cands (f + 1) .dotc p (c :: r) := by
  rw [show f + 1 = Nat.succ f from rfl, cands]; simp [hk]

theorem mem_seq {a b : Rx} {p : Option Char} {s : List Char} {na m f : Nat}
    (ha : na ∈ cands f a p s)
    (hb : m ∈ cands f b (prevAfter p s na) (s.drop na)) :
    na + m ∈ cands (f + 1) (.seq a b) p s := by
  rw [show f + 1 = Nat.succ f from rfl, cands]
  simp only [List.mem_flatMap, List.mem_map]
  exact ⟨na, ha, m, hb, rfl⟩

theorem mem_alt_r {b : Rx} {p : Option Char} {s : List Char} {n f : Nat} (a : Rx)
    (h : n ∈ cands f b p s) : n ∈ cands (f + 1) (.alt a b) p s := by
  rw [show f + 1 = Nat.succ f from rfl, cands]
  exact List.mem_append.mpr (Or.inr h)

theorem mem_alt_l {a : Rx} {p : Option Char} {s : List Char} {n f : Nat} (b : Rx)
    (h : n ∈ cands f a p s) : n ∈ cands (f + 1) (.alt a b) p s := by
  rw [show f + 1 = Nat.succ f from rfl, cands]
  exact List.mem_append.mpr (Or.inl h)

theorem mem_plus {a : Rx} {p : Option Char} {s : List Char} {na f : Nat}
    (ha : na ∈ cands f a p s) (hz : na ≠ 0) {m : Nat}
    (hm : m ∈ cands f (.star a) (prevAfter p s na) (s.drop na)) :
    na + m ∈ cands (f + 1) (.plus a) p s := by
  rw [show f + 1 = Nat.succ f from rfl, cands]
  simp only [List.mem_flatMap]
  refine ⟨na, ha, ?_⟩
  simp only [if_neg hz, List.mem_map]
  exact ⟨m, hm, rfl⟩

theorem mem_starL_any : ∀ (s : List Char) (f : Nat) (p : Option Char),
    s.length ∈ cands (f + s.length + 1) (.starL .anyc) p s := by
  intro s
  induction s with
  | nil =>
    intro f p
    simp only [List.length_nil]
    rw [show f + 0 + 1 = Nat.succ f from rfl, cands]
    simp
  | cons c cs ih =>
    intro f p
    rw [show f + (c :: cs).length + 1 = Nat.succ (f + cs.length + 1) by simp; omega, cands]
    refine List.mem_cons.mpr (Or.inr ?_)
    simp only [List.mem_flatMap]
    refine ⟨1, ?_, ?_⟩
    · rw [show f + cs.length + 1 = (f + cs.length) + 1 from rfl, cands]; simp
    · simp only [if_neg (by omega : (1 : Nat) ≠ 0), List.mem_map]
      exact ⟨cs.length, by simpa using ih f _, by simp [List.length_cons, Nat.add_comm]⟩

/-- Membership through the last alternative of an alternation list. -/
theorem altList_mem_last : ∀ (l : List Rx) (base : Rx) (f : Nat) (p : Option Char)
    (s : List Char) (n : Nat), n ∈ cands f base p s →
    n ∈ cands (f + l.length) (altList (l ++ [base])) p s := by
  intro l
  induction l with
  | nil => intro base f p s n h; simpa [altList] using h
  | cons r rs ih =>
    intro base f p s n h
    have step : altList ((r :: rs) ++ [base]) = .alt r (altList (rs ++ [base])) := by
      cases rs <;> rfl
    rw [step, show f + (r :: rs).length = (f + rs.length) + 1 by simp; omega]
    exact mem_alt_r r (ih base f p s n h)

/-! ## Progress and termination for the standard configuration -/

theorem dotOk_of_not_space {c : Char} (h : isJsSpace c = false) : jsDotOk c = true := by
  simp [isJsSpace] at h
  simp [jsDotOk]
  omega

theorem getTok_some {re : Rx} {ty : TType} {s : List Char}
    (h : ∃ n, jsMatch re s = some n) :
    ∃ t, getTokenOnFirstMatch (some re) ty s = some t := by
  obtain ⟨n, hn⟩ := h
  exact ⟨_, by rw [getTokenOnFirstMatch, hn]⟩

theorem orT_some_of_left {a b : Option IToken} (h : ∃ t, a = some t) :
    ∃ t, orT a b = some t := by
  obtain ⟨t, rfl⟩ := h
  exact ⟨t, rfl⟩

theorem orT_some_of_right {a b : Option IToken} (h : ∃ t, b = some t) :
    ∃ t, orT a b = some t := by
  cases a with
  | some t => exact ⟨t, rfl⟩
  | none => simpa [orT] using h

/-- On a space character the whitespace pattern matches. -/
theorem wsRx_matches {c : Char} (hc : isJsSpace c = true) (cs : List Char) :
    ∃ n, jsMatch whitespaceRx (c :: cs) = some n := by
  have h1 : (1 : Nat) ∈ cands (1 + 1) (.cc CClass.space) none (c :: cs) :=
    mem_cc (by simpa [ccMatch] using hc) 1 none cs
  have h0 : (0 : Nat) ∈ cands (1 + 1) (.star (.cc CClass.space))
      (prevAfter none (c :: cs) 1) ((c :: cs).drop 1) := star_zero_mem 1 _ _ _
  have h2 := mem_plus h1 (by omega) h0
  have h3 : (1 : Nat) ∈ cands (reFuel (c :: cs)) whitespaceRx none (c :: cs) := by
    refine cands_mono 3 (reFuel (c :: cs)) (by simp [reFuel]; omega) _ _ _ _ ?_
    simpa [whitespaceRx] using h2
  exact head?_of_mem h3

/-- On a non-line-terminator character the operator pattern matches
through its catch-all dot alternative. -/
theorem opRx_matches {c : Char} (hc : jsDotOk c = true) (cs : List Char) :
    ∃ n, jsMatch operatorRx (c :: cs) = some n := by
  have h1 : (1 : Nat) ∈ cands 1 .dotc none (c :: cs) := mem_dotc hc 0 none cs
  have h2 := altList_mem_last (operatorAlternatives.map fun s => strRx s.toList)
    .dotc 1 none (c :: cs) 1 h1
  have hl : (operatorAlternatives.map fun s => strRx s.toList).length = 18 := rfl
  rw [hl] at h2
  have h3 : (1 : Nat) ∈ cands (reFuel (c :: cs)) operatorRx none (c :: cs) := by
    refine cands_mono 19 (reFuel (c :: cs)) (by simp [reFuel]; omega) _ _ _ _ ?_
    simpa [operatorRx] using h2
  exact head?_of_mem h3

/-- Every nonempty input is matched by some classifier of the standard
Tokenizer: whitespace when the head is a space, otherwise the operator
catch-all; earlier classifiers may preempt but some token results. -/
theorem nextToken_total_std (prev : Option IToken) (c : Char) (cs : List Char) :
    ∃ t, getNextToken tkStd (c :: cs) prev = some t := by
  unfold getNextToken
  by_cases hsp : isJsSpace c
  · refine orT_some_of_left ?_
    unfold getWhitespaceToken
    exact getTok_some (wsRx_matches hsp cs)
  · refine orT_some_of_right (orT_some_of_right (orT_some_of_right
      (orT_some_of_right (orT_some_of_right (orT_some_of_right
      (orT_some_of_right (orT_some_of_right (orT_some_of_right ?_))))))))
    unfold getOperatorToken
    exact getTok_some (opRx_matches (dotOk_of_not_space (by simpa using hsp)) cs)

/-- Every classifier pattern of the standard Tokenizer requires at least
one character. -/
theorem activeRegexes_std_minOne : ∀ re ∈ activeRegexes tkStd, minOne re = true := by
  decide

/-- Progress: on any nonempty input the standard Tokenizer produces a
token consuming at least one character. -/
theorem nextToken_std_progress (prev : Option IToken) (c : Char) (cs : List Char) :
    ∃ t, getNextToken tkStd (c :: cs) prev = some t ∧ 1 ≤ t.value.length := by
  obtain ⟨t, ht⟩ := nextToken_total_std prev c cs
  obtain ⟨re, hre, n, hj, hv⟩ := nextToken_shape ht
  have hmo : minOne re = true := activeRegexes_std_minOne re hre
  have hmem : n ∈ cands (reFuel (c :: cs)) re none (c :: cs) := mem_of_head? hj
  have hn1 : 1 ≤ n := minOne_sound _ re none (c :: cs) n hmo hmem
  refine ⟨t, ht, ?_⟩
  rw [hv, List.length_take]
  simp [Nat.le_min]
  omega

/-- Termination of the tokenize loop for the standard Tokenizer, with
fuel at least the input length. -/
theorem tokenizeAux_total_std : ∀ (fuel : Nat) (s : List Char) (pos : Nat)
    (prev : Option IToken), s.length ≤ fuel →
    (tokenizeAux tkStd fuel s pos prev).isSome = true := by
  intro fuel
  induction fuel with
  | zero =>
    intro s pos prev h
    cases s with
    | nil => rw [tokenizeAux]; rfl
    | cons c cs => simp at h
  | succ f ih =>
    intro s pos prev h
    cases s with
    | nil => rw [tokenizeAux]; rfl
    | cons c cs =>
      obtain ⟨t, ht, h1⟩ := nextToken_std_progress prev c cs
      rw [tokenizeAux, ht]
      simp only []
      rw [if_neg (by omega)]
      have hlen : ((c :: cs).drop t.value.length).length ≤ f := by
        simp only [List.length_drop, List.length_cons] at *
        omega
      have := ih ((c :: cs).drop t.value.length) (pos + t.value.length)
        (some { t with position := (pos, pos + t.value.length) }) hlen
      cases htr : tokenizeAux tkStd f ((c :: cs).drop t.value.length)
          (pos + t.value.length)
          (some { t with position := (pos, pos + t.value.length) }) with
      | none => rw [htr] at this; simp at this
      | some rest => simp [htr]

/-- tokenize is total on the standard Tokenizer. -/
theorem tokenize_total_std (s : List Char) : (tokenize tkStd s).isSome = true :=
  tokenizeAux_total_std s.length s 0 none (Nat.le_refl _)

/-! ## Classifier failure lemmas and the hard-coded block comment -/

theorem ch_no {c d : Char} (h : ¬ d = c) :
    ∀ (f : Nat) (p : Option Char) (r : List Char), cands f (.ch c) p (d :: r) = [] := by
  intro f p r
  cases f with
  | zero => rfl
  | succ f => simp only [cands]; rw [if_neg h]

theorem cc_no {k : CClass} {c : Char} (h : ccMatch k c = false) :
    ∀ (f : Nat) (p : Option Char) (r : List Char), cands f (.cc k) p (c :: r) = [] := by
  intro f p r
  cases f with
  | zero => rfl
  | succ f => simp only [cands]; rw [if_neg (by simp [h])]

theorem seq_no_left {a : Rx} (b : Rx) {c : Char}
    (hl : ∀ (f : Nat) (p : Option Char) (r : List Char), cands f a p (c :: r) = []) :
    ∀ (f : Nat) (p : Option Char) (r : List Char), cands f (.seq a b) p (c :: r) = [] := by
  intro f p r
  cases f with
  | zero => rfl
  | succ f => simp only [cands, hl f p r, List.flatMap_nil]

theorem alt_no {a b : Rx} {c : Char}
    (ha : ∀ (f : Nat) (p : Option Char) (r : List Char), cands f a p (c :: r) = [])
    (hb : ∀ (f : Nat) (p : Option Char) (r : List Char), cands f b p (c :: r) = []) :
    ∀ (f : Nat) (p : Option Char) (r : List Char), cands f (.alt a b) p (c :: r) = [] := by
  intro f p r
  cases f with
  | zero => rfl
  | succ f => simp only [cands, ha f p r, hb f p r, List.append_nil]

theorem plus_no {a : Rx} {c : Char}
    (ha : ∀ (f : Nat) (p : Option Char) (r : List Char), cands f a p (c :: r) = []) :
    ∀ (f : Nat) (p : Option Char) (r : List Char), cands f (.plus a) p (c :: r) = [] := by
  intro f p r
  cases f with
  | zero => rfl
  | succ f => simp only [cands, ha f p r, List.flatMap_nil]

theorem jsMatch_none_of_no {re : Rx} {c : Char} {r : List Char}
    (h : ∀ (f : Nat) (p : Option Char) (r' : List Char), cands f re p (c :: r') = []) :
    jsMatch re (c :: r) = none := by
  unfold jsMatch
  rw [h]
  rfl

/-- The whitespace pattern fails on a non-space head. -/
theorem wsRx_no {c : Char} (hc : isJsSpace c = false) :
    ∀ (f : Nat) (p : Option Char) (r : List Char), cands f whitespaceRx p (c :: r) = [] :=
  plus_no (cc_no (by simpa [ccMatch] using hc))

/-- The standard line comment pattern fails on a slash head. -/
theorem lineStd_no :
    ∀ (f : Nat) (p : Option Char) (r : List Char),
      cands f (createLineCommentRegex ["#", "--"]) p ('/' :: r) = [] := by
  have e : createLineCommentRegex ["#", "--"] =
      .seq (.alt (strRx (("#").toList)) (strRx (("--").toList)))
        (.seq (.starL .dotc) (.alt (.ch nlc) .eos)) := rfl
  rw [e]
  refine seq_no_left _ (alt_no ?_ ?_)
  · exact seq_no_left _ (ch_no (by decide))
  · exact seq_no_left _ (ch_no (by decide))

/-- The hard-coded block comment pattern matches any input that starts
with slash star: the lazy star reaches the end of input where the end
anchor fires (or earlier where star slash occurs). -/
theorem blockRx_matches (s : List Char) :
    ∃ n, jsMatch blockCommentRx ('/' :: '*' :: s) = some n := by
  have h_alt : ∀ q, (0 : Nat) ∈ cands (s.length + 2)
      (.alt (strRx (("*/").toList)) .eos) q (s.drop s.length) := by
    intro q
    rw [List.drop_length]
    exact mem_alt_r _ (mem_eos (s.length + 1) q)
  have h_star : ∀ q, s.length ∈ cands (s.length + 2) (.starL .anyc) q s := by
    intro q
    have := mem_starL_any s 1 q
    rwa [show 1 + s.length + 1 = s.length + 2 by omega] at this
  have h_tail : ∀ q, s.length + 0 ∈ cands (s.length + 3)
      (.seq (.starL .anyc) (.alt (strRx (("*/").toList)) .eos)) q s := by
    intro q
    exact mem_seq (h_star q) (h_alt _)
  have h_eps2 : ∀ q, (0 : Nat) ∈ cands (s.length + 3) Rx.eps q (('*' :: s).drop 1) :=
    fun q => mem_eps (s.length + 2) q _
  have h_c2 : (1 : Nat) ∈ cands (s.length + 3) (.ch '*') (some '/') ('*' :: s) := by
    have := mem_ch (s.length + 2) '*' (some '/') s
    rwa [show s.length + 2 + 1 = s.length + 3 by omega] at this
  have h_seq2 : 1 + 0 ∈ cands (s.length + 4) (.seq (.ch '*') Rx.eps)
      (some '/') ('*' :: s) := mem_seq h_c2 (h_eps2 _)
  have h_c1 : (1 : Nat) ∈ cands (s.length + 4) (.ch '/') none ('/' :: '*' :: s) := by
    have := mem_ch (s.length + 3) '/' none ('*' :: s)
    rwa [show s.length + 3 + 1 = s.length + 4 by omega] at this
  have h_left : 1 + (1 + 0) ∈ cands (s.length + 5)
      (.seq (.ch '/') (.seq (.ch '*') Rx.eps)) none ('/' :: '*' :: s) := by
    refine mem_seq h_c1 ?_
    exact h_seq2
  have h_tail5 : s.length + 0 ∈ cands (s.length + 5)
      (.seq (.starL .anyc) (.alt (strRx (("*/").toList)) .eos))
      (prevAfter none ('/' :: '*' :: s) (1 + (1 + 0)))
      (('/' :: '*' :: s).drop (1 + (1 + 0))) := by
    refine cands_mono (s.length + 3) (s.length + 5) (by omega) _ _ _ _ ?_
    exact h_tail _
  have h_all : (1 + (1 + 0)) + (s.length + 0) ∈ cands (s.length + 6)
      blockCommentRx none ('/' :: '*' :: s) := by
    have e : blockCommentRx = .seq (.seq (.ch '/') (.seq (.ch '*') Rx.eps))
        (.seq (.starL .anyc) (.alt (strRx (("*/").toList)) .eos)) := rfl
    rw [e]
    exact mem_seq h_left h_tail5
  have h_big : (1 + (1 + 0)) + (s.length + 0) ∈
      cands (reFuel ('/' :: '*' :: s)) blockCommentRx none ('/' :: '*' :: s) := by
    refine cands_mono (s.length + 6) _ ?_ _ _ _ _ h_all
    simp [reFuel]
    omega
  exact head?_of_mem h_big

/-- On input beginning with slash star, the standard Tokenizer
classifies a block comment: whitespace and line comment fail, and the
hard-coded block pattern matches. -/
theorem nextToken_block_std (s : List Char) (prev : Option IToken) :
    ∃ t, getNextToken tkStd ('/' :: '*' :: s) prev = some t ∧
      t.type = TType.BLOCK_COMMENT := by
  obtain ⟨n, hbm⟩ := blockRx_matches s
  have hws : getWhitespaceToken tkStd ('/' :: '*' :: s) = none := by
    have hw : jsMatch tkStd.WHITESPACE_REGEX ('/' :: '*' :: s) = none :=
      jsMatch_none_of_no (wsRx_no (by decide))
    simp [getWhitespaceToken, getTokenOnFirstMatch, hw]
  have hline : getLineCommentToken tkStd ('/' :: '*' :: s) = none := by
    have hw : jsMatch tkStd.LINE_COMMENT_REGEX ('/' :: '*' :: s) = none :=
      jsMatch_none_of_no lineStd_no
    simp [getLineCommentToken, getTokenOnFirstMatch, hw]
  have hbm2 : jsMatch tkStd.BLOCK_COMMENT_REGEX ('/' :: '*' :: s) = some n := hbm
  have hblock : getBlockCommentToken tkStd ('/' :: '*' :: s) = some
      { type := TType.BLOCK_COMMENT, value := ('/' :: '*' :: s).take n, key := none,
        position := (0, 0) } := by
    simp [getBlockCommentToken, getTokenOnFirstMatch, hbm2]
  refine ⟨{ type := TType.BLOCK_COMMENT, value := List.take n ('/' :: '*' :: s), key := none, position := (0, 0) }, ?_, rfl⟩
  unfold getNextToken getCommentToken
  rw [hws, hline, hblock]
  rfl

/-- The first token of the standard tokenization of any input beginning
with slash star is a block comment. -/
theorem tokenize_block_head (s : List Char) :
    ∃ t rest, tokenize tkStd ('/' :: '*' :: s) = some (t :: rest) ∧
      t.type = TType.BLOCK_COMMENT := by
  obtain ⟨t, ht, hty⟩ := nextToken_block_std s none
  obtain ⟨re, hre, n, hj, hv⟩ := nextToken_shape ht
  have h1 : 1 ≤ t.value.length := by
    have hmo := activeRegexes_std_minOne re hre
    have hge := minOne_sound _ re none _ n hmo (mem_of_head? hj)
    rw [hv, List.length_take]
    simp only [List.length_cons]
    omega
  unfold tokenize
  have hl : ('/' :: '*' :: s).length = Nat.succ (s.length + 1) := by simp
  rw [hl, tokenizeAux, ht]
  simp only []
  rw [if_neg (by omega)]
  have htot := tokenizeAux_total_std (s.length + 1)
    (('/' :: '*' :: s).drop t.value.length) (0 + t.value.length)
    (some { t with position := (0, 0 + t.value.length) })
    (by simp only [List.length_drop, List.length_cons]; omega)
  cases hrec : tokenizeAux tkStd (s.length + 1) (List.drop t.value.length ('/' :: '*' :: s))
      (0 + t.value.length)
      (some { type := t.type, value := t.value, key := t.key,
              position := (0, 0 + t.value.length) }) with
  | none => rw [hrec] at htot; simp at htot
  | some rest => exact ⟨_, rest, rfl, hty⟩

/-! ## Decoding of escaped placeholder keys -/

theorem replAux_no_match (q : Char) :
    ∀ (s : List Char) (f : Nat), ¬ bsc ∈ s → s.length ≤ f →
      replAux f [bsc, q] [q] s = s := by
  intro s
  induction s with
  | nil => intro f _ _; cases f <;> rfl
  | cons c cs ih =>
    intro f hmem hlen
    obtain ⟨g, rfl⟩ : ∃ g, f = g + 1 := ⟨f - 1, by simp at hlen; omega⟩
    rw [replAux]
    rw [if_neg]
    · rw [ih g (fun hc => hmem (List.mem_cons_of_mem c hc)) (by simp at hlen; omega)]
    · rintro ⟨-, hpre⟩
      simp only [leadsWith, Bool.and_eq_true, decide_eq_true_eq] at hpre
      exact hmem (hpre.1 ▸ List.mem_cons_self _ _)

theorem replAux_decodes (q : Char) (b : List Char) (hb : ¬ bsc ∈ b) :
    ∀ (a : List Char) (f : Nat), ¬ bsc ∈ a →
      (a ++ bsc :: q :: b).length ≤ f →
      replAux f [bsc, q] [q] (a ++ bsc :: q :: b) = a ++ q :: b := by
  intro a
  induction a with
  | nil =>
    intro f _ hlen
    obtain ⟨g, rfl⟩ : ∃ g, f = g + 1 := ⟨f - 1, by simp at hlen; omega⟩
    simp only [List.nil_append]
    rw [replAux]
    rw [if_pos]
    · rw [show (bsc :: q :: b).drop ([bsc, q]).length = b from rfl]
      rw [replAux_no_match q b g hb (by simp at hlen; omega)]
      rfl
    · exact ⟨by simp, by simp [leadsWith]⟩
  | cons c a ih =>
    intro f hmem hlen
    obtain ⟨g, rfl⟩ : ∃ g, f = g + 1 := ⟨f - 1, by simp at hlen; omega⟩
    rw [show (c :: a) ++ bsc :: q :: b = c :: (a ++ bsc :: q :: b) from rfl]
    rw [replAux]
    rw [if_neg]
    · rw [ih g (fun hc => hmem (List.mem_cons_of_mem c hc)) (by simp at hlen ⊢; omega)]
      simp
    · rintro ⟨-, hpre⟩
      simp only [leadsWith, Bool.and_eq_true, decide_eq_true_eq] at hpre
      exact hmem (hpre.1 ▸ List.mem_cons_self _ _)

/-- Every backslash-quote pair in a key is decoded to the bare quote:
the single-occurrence statement, applicable anywhere in the key since
the surrounding parts are arbitrary. -/
theorem escKey_decodes (a b : List Char) (q : Char) (ha : ¬ bsc ∈ a)
    (hb : ¬ bsc ∈ b) :
    getEscapedPlaceholderKey (a ++ bsc :: q :: b) [q] = a ++ q :: b := by
  unfold getEscapedPlaceholderKey replaceAll
  exact replAux_decodes q b hb a _ ha (by simp)

/-! ## Claim theorems -/

/-- C1 (amended): whenever tokenize returns a token sequence,
concatenating all token values in order reproduces the input exactly
and the position ranges are contiguous and non-overlapping, covering
the input from offset 0; for degenerate configurations whose patterns
match the empty string, tokenize fails to advance and returns no
sequence at all. -/
theorem c1_concat_positions (tk : Tokenizer) (s : List Char) (toks : List IToken)
    (h : tokenize tk s = some toks) :
    concatVals toks = s ∧ contigFrom 0 toks = true :=
  tokenize_inv tk s toks h

/-- Witness for C1 at the standard configuration on a concrete input. -/
theorem c1_concat_positions_witness :
    concatVals c1Toks = ("select 1").toList ∧ contigFrom 0 c1Toks = true :=
  c1_concat_positions tkStd (("select 1").toList) c1Toks (by decide)

/-- C1 counterexample: with an empty plain reserved word list, a legal
dialect configuration, construction succeeds but tokenize returns no
token sequence for input x: the degenerate reserved pattern matches
zero characters and the loop never advances. -/
theorem c1_counterexample :
    (Tokenizer.create cfgNoPlainReservedC).isOk = true ∧
    (Tokenizer.create cfgNoPlainReservedC).map
      (fun tk => tokenize tk (("x").toList)) = .ok none :=
  ⟨rfl, rfl⟩

/-- C2 (amended): for the standard configuration, whose classifier
patterns all require at least one character, every nonempty remaining
suffix is matched by some classifier with a value of at least one
character, and tokenize terminates on every input, advancing by exactly
the matched length each step. -/
theorem c2_terminates_std :
    (∀ (prev : Option IToken) (c : Char) (cs : List Char),
      ∃ t, getNextToken tkStd (c :: cs) prev = some t ∧ 1 ≤ t.value.length) ∧
    (∀ s : List Char, (tokenize tkStd s).isSome = true) :=
  ⟨nextToken_std_progress, tokenize_total_std⟩

/-- C2 counterexample: with an empty open paren list, a legal dialect
configuration, the open paren classifier matches the empty string on
any input, the loop consumes nothing, and tokenize does not terminate,
modelled as returning none. -/
theorem c2_counterexample :
    (Tokenizer.create cfgNoOpenParensC).isOk = true ∧
    (Tokenizer.create cfgNoOpenParensC).map
      (fun tk => tokenize tk (("a").toList)) = .ok none :=
  ⟨rfl, rfl⟩

/-- C3 (code bug): tokenizing t dot from under the standard dialect, in
which from is a toplevel reserved word, yields single-character
operator tokens for the letters after the dot instead of a generic word
token: the word regex built by createWordRegex matches only the
configured special characters, never an alphabetic word, contradicting
the documented meaning of wordChars as characters found inside words.
The reserved suppression itself works: from alone is reserved, and
after the dot it is not. -/
theorem c3_dot_word_lexes_as_operator :
    tokenize tkStd (("t.from").toList) = some
      [mkT .OPERATOR ("t") 0 1, mkT .OPERATOR (".") 1 2, mkT .OPERATOR ("f") 2 3,
       mkT .OPERATOR ("r") 3 4, mkT .OPERATOR ("o") 4 5, mkT .OPERATOR ("m") 5 6] ∧
    tokenize tkStd (("from").toList) = some [mkT .RESERVED_TOPLEVEL ("from") 0 4] :=
  ⟨rfl, rfl⟩

/-- C4: getNextToken tries the classifiers in exactly the fixed
priority order of the specification and takes the first match:
whitespace; line comment; block comment; quoted string; open paren;
close paren; identifier-named, string-named, indexed placeholder;
number; toplevel, newline, plain reserved word; generic word;
operator. -/
theorem c4_classifier_priority_order (tk : Tokenizer) (s : List Char)
    (prev : Option IToken) :
    getNextToken tk s prev = firstSome (classifierChain tk prev) s :=
  getNextToken_eq_firstSome tk s prev

/-- C5: tokenizing the string-named placeholder input under the
standard dialect, whose named placeholder prefixes include the at sign
and whose string types include single quotes, yields one placeholder
token whose key decodes the escaped quote; a two-escape input decodes
both; and in general every backslash-quote occurrence in a key is
replaced by the bare quote. -/
theorem c5_string_named_placeholder_decodes :
    tokenize tkStd c5Input = some
      [{ type := .PLACEHOLDER, value := c5Input,
         key := some ('a' :: sqc :: 'b' :: []), position := (0, 7) }] ∧
    tokenize tkStd c5TwoInput = some
      [{ type := .PLACEHOLDER, value := c5TwoInput,
         key := some ('a' :: sqc :: 'b' :: sqc :: 'c' :: []), position := (0, 10) }] ∧
    (∀ (a b : List Char) (q : Char), ¬ bsc ∈ a → ¬ bsc ∈ b →
      getEscapedPlaceholderKey (a ++ bsc :: q :: b) [q] = a ++ q :: b) :=
  ⟨rfl, rfl, escKey_decodes⟩

/-- Witness for C5 on a concrete key. -/
theorem c5_string_named_placeholder_decodes_witness :
    getEscapedPlaceholderKey (('a' :: []) ++ bsc :: sqc :: ('b' :: [])) [sqc] =
      ('a' :: []) ++ sqc :: ('b' :: []) :=
  c5_string_named_placeholder_decodes.2.2 ('a' :: []) ('b' :: []) sqc
    (by decide) (by decide)

/-- C6: tokenize never fails on the standard configuration, and
malformed constructs degrade to a single token of the corresponding
type extending to the end of the input: an unterminated block comment
and an unterminated quoted string each become one token. -/
theorem c6_no_failure_and_degrade :
    (∀ s : List Char, (tokenize tkStd s).isSome = true) ∧
    tokenize tkStd (("/* ab").toList) = some [mkT .BLOCK_COMMENT ("/* ab") 0 5] ∧
    tokenize tkStd (sqc :: 'a' :: 'b' :: []) = some
      [{ type := .STRING, value := sqc :: 'a' :: 'b' :: [], key := none,
         position := (0, 3) }] :=
  ⟨tokenize_total_std, rfl, rfl⟩

/-- C7 (amended): only the placeholder token classes are disabled by a
missing or empty configuration list, their classifier then matching no
input.  Of the other classes, line comments, the three reserved word
classes, string types and the two paren classes raise at construction
time when their list is missing, while a missing word character list is
silently accepted through the default empty list parameter.  An empty
list never disables a class: the resulting classifier still matches --
the empty-prefix line comment pattern matches a whole line, and the
empty word, reserved word, string and paren patterns match the empty
string at the current position (which is how the non-terminating
configurations of the other claims arise). -/
theorem c7_placeholder_only_disabled :
    (∀ pat : Rx, createPlaceholderRegex none pat = none) ∧
    (∀ pat : Rx, createPlaceholderRegex (some []) pat = none) ∧
    (∀ (pk : List Char → List Char) (s : List Char),
      getPlaceholderTokenWithKey none pk s = none) ∧
    (∃ e, Tokenizer.create cfgMissingLineComments = .error e) ∧
    (∃ e, Tokenizer.create cfgMissingToplevel = .error e) ∧
    (∃ e, Tokenizer.create cfgMissingNewline = .error e) ∧
    (∃ e, Tokenizer.create cfgMissingReserved = .error e) ∧
    (∃ e, Tokenizer.create cfgMissingStringTypes = .error e) ∧
    (∃ e, Tokenizer.create cfgMissingOpenParens = .error e) ∧
    (∃ e, Tokenizer.create cfgMissingCloseParens = .error e) ∧
    (Tokenizer.create cfgMissingWordChars).map
      (fun tk => getWordToken tk (("x").toList)) =
      .ok (some { type := .WORD, value := [], key := none, position := (0, 0) }) ∧
    (Tokenizer.create cfgNoLineCommentsC).map
      (fun tk => getLineCommentToken tk (("ab").toList)) =
      .ok (some { type := .LINE_COMMENT, value := ("ab").toList, key := none,
                  position := (0, 0) }) ∧
    (Tokenizer.create cfgNoPlainReservedC).map
      (fun tk => getPlainReservedToken tk (("x").toList)) =
      .ok (some { type := .RESERVED, value := [], key := none, position := (0, 0) }) ∧
    (Tokenizer.create cfgInconsistentC).map
      (fun tk => getStringToken tk (("x").toList)) =
      .ok (some { type := .STRING, value := [], key := none, position := (0, 0) }) ∧
    (Tokenizer.create cfgNoOpenParensC).map
      (fun tk => getOpenParenToken tk (("x").toList)) =
      .ok (some { type := .OPEN_PAREN, value := [], key := none, position := (0, 0) }) :=
  ⟨fun _ => rfl, fun _ => rfl, fun _ _ => rfl, ⟨_, rfl⟩, ⟨_, rfl⟩, ⟨_, rfl⟩, ⟨_, rfl⟩,
   ⟨_, rfl⟩, ⟨_, rfl⟩, ⟨_, rfl⟩, rfl, rfl, rfl, rfl, rfl⟩

/-- C7 counterexample: with an empty line comment list, construction
succeeds and the line comment classifier matches the input ab whole,
refuting that an empty list disables the class. -/
theorem c7_counterexample :
    (Tokenizer.create cfgNoLineCommentsC).isOk = true ∧
    (Tokenizer.create cfgNoLineCommentsC).map
      (fun tk => getLineCommentToken tk (("ab").toList)) =
      .ok (some { type := .LINE_COMMENT, value := ("ab").toList, key := none,
                  position := (0, 0) }) :=
  ⟨rfl, rfl⟩

/-- C8 (amended): the constructor performs no consistency validation: a
named placeholder prefix with an empty string type list is silently
accepted, and the resulting string-named placeholder classifier matches
the bare prefix with an empty key. -/
theorem c8_no_construction_validation :
    (Tokenizer.create cfgInconsistentC).isOk = true ∧
    (Tokenizer.create cfgInconsistentC).map
      (fun tk => getStringNamedPlaceholderToken tk (("@x").toList)) =
      .ok (some { type := .PLACEHOLDER, value := ("@").toList, key := some [],
                  position := (0, 0) }) :=
  ⟨rfl, rfl⟩

/-- C8 counterexample: the internally inconsistent configuration, a
named placeholder prefix with no matching string pattern, is accepted
at construction time with no error of any kind. -/
theorem c8_counterexample :
    (Tokenizer.create cfgInconsistentC).isOk = true :=
  rfl

/-- C9 (spec-modelled engine): parsing the token sequence of the select
statement succeeds, the abstract syntax tree is a statement node of
variant select, its from clause names table t, and its where clause is
present. -/
theorem c9_select_statement_parses :
    (sqlParse demoTokens 0).success = true ∧
    variantOf (sqlParse demoTokens 0) = some ("select") ∧
    fromTableOf (sqlParse demoTokens 0) = some (("t").toList) ∧
    wherePresent (sqlParse demoTokens 0) = true :=
  ⟨rfl, rfl, rfl, rfl⟩

/-- C10 (amended): block comment recognition is hard coded, and under
the standard configuration, whose line comment prefixes do not match a
slash, every input beginning with slash star produces a block comment
as its first token; with an empty line comment list the degenerate line
comment pattern has priority instead. -/
theorem c10_block_comment_priority (s : List Char) :
    ∃ t rest, tokenize tkStd ('/' :: '*' :: s) = some (t :: rest) ∧
      t.type = TType.BLOCK_COMMENT :=
  tokenize_block_head s

/-- C10 counterexample: with line comment prefixes absent (an empty
list), the input slash star x is tokenized as a line comment, not a
block comment. -/
theorem c10_counterexample :
    (Tokenizer.create cfgNoLineCommentsC).map
      (fun tk => tokenize tk (("/*x").toList)) =
      .ok (some [{ type := .LINE_COMMENT, value := ("/*x").toList, key := none,
                   position := (0, 3) }]) :=
  rfl
